import Mathlib

/-!
Shallow embedding of the El Presidente server core (`elpres/models.py`,
`elpres/engine.py`, `elpres/server.py`).

Python's mutable game state is modelled by explicit state passing: every
engine entry point takes a `Game` and returns the (possibly error-carrying)
result together with the successor state.  Machine integers are `Nat`/`Int`
(Python ints are unbounded, so no wrap-around modelling is needed); the
`-1` sentinel used for `last_play_player_idx` keeps that field an `Int`.
The random shuffle is an external input: dealing functions take the
already-shuffled deck as a `List Card` parameter.
-/

namespace Elpres

/-- Card rank order (low to high): 3,4,5,6,7,8,9,T,J,Q,K,A,2 — `RANK_ORDER` in models.py. -/
def RANK_ORDER : List Char := ['3', '4', '5', '6', '7', '8', '9', 'T', 'J', 'Q', 'K', 'A', '2']

/-- Suit order (low to high): C,D,H,S — `SUIT_ORDER` in models.py. -/
def SUIT_ORDER : List Char := ['C', 'D', 'H', 'S']

/-- `card_value` in models.py: sortable value `rank_index * 4 + suit_index`.
Python's `str.index` raises on a missing character; `List.indexOf` returns the
length instead, which coincides on every rank/suit actually drawn from the two
order strings. -/
def cardValue (rank suit : Char) : Nat :=
  RANK_ORDER.indexOf rank * 4 + SUIT_ORDER.indexOf suit

/-- `Card` dataclass from models.py (rank is already normalised: "10" is stored as 'T'). -/
structure Card where
  rank : Char
  suit : Char
deriving DecidableEq, Repr

instance : Inhabited Card := ⟨⟨'3', 'C'⟩⟩

def Card.value (c : Card) : Nat := cardValue c.rank c.suit

/-- The 3♣ test that appears throughout engine.py (`c.rank == "3" and c.suit == "C"`). -/
def is3C (c : Card) : Bool := c.rank = '3' && c.suit = 'C'

/-- `Play` dataclass from models.py: one or more face-up cards of the same rank. -/
structure Play where
  cards : List Card
deriving DecidableEq, Repr

instance : Inhabited Play := ⟨⟨[]⟩⟩

/-- Maximum suit index over a play's cards (`max(SUIT_ORDER.index(c.suit) for c in cards)`).
Python's `max` over a non-empty sequence; the `0` seed is only reached on the
empty list, which `beats` guards against. -/
def maxSuitIdx (cards : List Card) : Nat :=
  (cards.map (fun c => SUIT_ORDER.indexOf c.suit)).foldl max 0

/-- `Play.beats` from models.py: higher rank wins, same rank compares max suit.
A `Play` object is always truthy in Python, so `if not other or not other.cards`
reduces to the emptiness test on `other.cards`. -/
def Play.beats (self other : Play) : Bool :=
  if other.cards.isEmpty then true
  else if self.cards.isEmpty then false
  else
    let r1 := RANK_ORDER.indexOf (self.cards.headD default).rank
    let r2 := RANK_ORDER.indexOf (other.cards.headD default).rank
    if r1 > r2 then true
    else if r1 < r2 then false
    else maxSuitIdx self.cards > maxSuitIdx other.cards

/-- `Accolade` enum from models.py. -/
inductive Accolade where
  | ElPresidente
  | VP
  | Pleb
  | Shithead
deriving DecidableEq, Repr

/-- `GamePhase` enum from models.py. -/
inductive GamePhase where
  | Trading
  | Playing
deriving DecidableEq, Repr

/-- `Player` dataclass from models.py. -/
structure Player where
  id : String
  name : String
  past_accolade : Accolade
  accolade : Accolade
  hand : List Card
deriving DecidableEq, Repr

instance : Inhabited Player := ⟨⟨"", "", .Pleb, .Pleb, []⟩⟩

/-- Insert a card into a value-sorted list after all strictly smaller or equal
values (one step of a stable insertion sort). -/
def insertByValue (c : Card) : List Card → List Card
  | [] => [c]
  | x :: xs => if c.value < x.value then c :: x :: xs else x :: insertByValue c xs

/-- Stable sort ascending by card value — the model of Python's
`hand.sort(key=lambda c: c.value)` / `sorted(hand, key=...)` (any stable sort
by the key; insertion sort keeps the kernel able to evaluate it). -/
def sortByValue (l : List Card) : List Card := l.foldr insertByValue []

/-- `Player.hand_sorted`: the hand sorted ascending by card value. -/
def Player.hand_sorted (p : Player) : List Card := sortByValue p.hand

/-- `CardPile` from models.py: a stack of plays. -/
structure CardPile where
  plays : List Play
deriving DecidableEq, Repr

/-- `CardPile.current_play`: the last play, if any (`plays[-1]`). -/
def CardPile.currentPlay (p : CardPile) : Option Play := p.plays.getLast?

/-- `GameRound` from models.py. `last_play_player_idx` is `-1` until a play lands. -/
structure GameRound where
  starting_player_idx : Nat
  pile : CardPile
  last_play_player_idx : Int
deriving DecidableEq, Repr

/-- `Game` dataclass from models.py.  `passed_this_round` is a Python `set` of
indices, modelled as a `Finset ℕ`. -/
structure Game where
  dealer_idx : Nat
  current_player_idx : Nat
  players : List Player
  round : GameRound
  phase : GamePhase
  results : List String
  passed_this_round : Finset Nat
  rounds_completed : Nat
  trade_high_card : Option Card
  trade_low_card : Option Card
  trade_ep_claimed : Bool
  trade_sh_claimed : Bool
deriving DecidableEq

/-- `GameRoom` from models.py (fields the modelled commands touch;
`dick_tagged_at` timestamps are rationals standing in for `time.time()` floats,
whose arithmetic here is only subtraction and comparison). -/
structure GameRoom where
  name : String
  current_game : Option Game
  players : List Player
  spectator_preferences : List (String × Bool)
  dick_tagged_player_id : Option String
  dick_tagged_at : Option ℚ
deriving DecidableEq

/-- The player at index `i` (Python `game.players[i]`; in every theorem that
uses this the index is in bounds, matching Python's defined behaviour). -/
def handAt (players : List Player) (i : Nat) : List Card :=
  (players.getD i default).hand

/-- `get_highest_card` from engine.py: `max(hand, key=value)`, which returns the
first maximal element. -/
def getHighestCard (hand : List Card) : Option Card :=
  hand.foldl (fun acc c =>
    match acc with
    | none => some c
    | some m => if c.value > m.value then some c else some m) none

/-- `get_lowest_card` from engine.py: minimum by value over the hand, excluding
the 3♣ when `exclude_3c` (Python `min` returns the first minimal element). -/
def getLowestCard (hand : List Card) (exclude_3c : Bool := true) : Option Card :=
  if hand.isEmpty then none
  else
    let candidates := if exclude_3c then hand.filter (fun c => !is3C c) else hand
    if candidates.isEmpty then none
    else candidates.foldl (fun acc c =>
      match acc with
      | none => some c
      | some m => if c.value < m.value then some c else some m) none

/-- `is_valid_play` from engine.py.  `if current and current.cards` is the
non-`None`-and-non-empty test (a `Play` object itself is always truthy). -/
def isValidPlay (play : Play) (current : Option Play) (numCardsRequired : Option Nat) : Bool :=
  if play.cards.isEmpty then false
  else
    let rank := (play.cards.headD default).rank
    if !play.cards.all (fun c => c.rank = rank) then false
    else
      match current with
      | some cur =>
        if !cur.cards.isEmpty then
          if play.cards.length ≠ cur.cards.length then false
          else play.beats cur
        else
          match numCardsRequired with
          | some k => play.cards.length = k
          | none => true
      | none =>
        match numCardsRequired with
        | some k => play.cards.length = k
        | none => true

/-- `must_play_3c` from engine.py: the play includes the 3♣. -/
def mustPlay3C (play : Play) : Bool := play.cards.any is3C

/-- `_combos` from engine.py: all combinations of `k` elements of `arr`, in the
same order the Python loop produces them (combinations starting with the head
first, then combinations drawn from the tail). -/
def combos : List Card → Nat → List (List Card)
  | _, 0 => [[]]
  | [], _ + 1 => []
  | x :: rest, k + 1 => ((combos rest k).map (fun c => x :: c)) ++ combos rest (k + 1)

/-- Rank keys in first-occurrence order: Python's `defaultdict` keeps insertion
order, so `by_rank.items()` iterates ranks in order of first appearance. -/
def firstOccur : List Char → List Char → List Char
  | _, [] => []
  | seen, r :: rs => if r ∈ seen then firstOccur seen rs else r :: firstOccur (r :: seen) rs

/-- The `by_rank` grouping of `get_valid_plays`: ranks in first-occurrence
order, each group value-sorted. -/
def byRank (hand : List Card) : List (Char × List Card) :=
  (firstOccur [] (hand.map (fun c => c.rank))).map
    (fun r => (r, sortByValue (hand.filter (fun c => c.rank = r))))

/-- The required play size of `get_valid_plays`:
`n = len(current.cards) if current and current.cards else None`, falling back
to `num_required`. -/
def requiredN (current : Option Play) (numRequired : Option Nat) : Option Nat :=
  match current with
  | some c => if c.cards.isEmpty then numRequired else some c.cards.length
  | none => numRequired

/-- The main accumulation loop of `get_valid_plays` (the `result` list).
`if n and len(cards) < n` uses Python truthiness: the group-size check is
skipped when `n` is `None` or `0`. -/
def validPlaysMain (hand : List Card) (current : Option Play) (numRequired : Option Nat)
    (mustInclude3c : Bool) : List (List Card) :=
  let n := requiredN current numRequired
  (byRank hand).flatMap (fun rc =>
    let cards := rc.2
    if (match n with | some k => decide (k ≠ 0) && decide (cards.length < k) | none => false) then []
    else if mustInclude3c && !cards.any is3C then []
    else
      match n with
      | none =>
        (List.range' 1 cards.length).flatMap (fun k =>
          (combos cards k).filter (fun combo =>
            !(mustInclude3c && !combo.any is3C) && isValidPlay ⟨combo⟩ current numRequired))
      | some k =>
        (combos cards k).filter (fun combo =>
          isValidPlay ⟨combo⟩ current numRequired && !(mustInclude3c && !combo.any is3C)))

/-- The opening-lead fallback of `get_valid_plays`: all same-rank combinations
of any size. -/
def validPlaysFallback (hand : List Card) : List (List Card) :=
  (byRank hand).flatMap (fun rc =>
    (List.range' 1 rc.2.length).flatMap (fun k => combos rc.2 k))

/-- `get_valid_plays` from engine.py. -/
def getValidPlays (hand : List Card) (current : Option Play) (numRequired : Option Nat)
    (mustInclude3c : Bool) : List (List Card) :=
  let pileEmpty :=
    match current with
    | none => true
    | some c => c.cards.isEmpty
  if hand.isEmpty then []
  else
    let result := validPlaysMain hand current numRequired mustInclude3c
    if pileEmpty && !hand.isEmpty && result.isEmpty then validPlaysFallback hand
    else result

/-- Replace player `i`'s hand (Python mutates `game.players[i].hand` in place). -/
def setHand (g : Game) (i : Nat) (hand : List Card) : Game :=
  { g with players := g.players.set i { g.players.getD i default with hand := hand } }

/-- The card-removal loop of `apply_play`.  Python removes the play's cards one
at a time from the mutable hand and returns "Card not in hand" as soon as one
is missing, so the cards removed before the failure stay removed; the returned
hand reflects that partial removal.  (`Card.__eq__` is field equality, so the
membership test and the rank/suit fallback scan in the source coincide; a
successful iteration always removes exactly one card.) -/
def removePlayed : List Card → List Card → Option String × List Card
  | [], hand => (none, hand)
  | c :: rest, hand =>
    if hand.contains c then removePlayed rest (hand.erase c)
    else (some "Card not in hand", hand)

/-- The circular turn walk shared by `apply_play`, `apply_pass` and
`_start_new_round`: starting at `cur`, step `(cur + 1) % n` until reaching
`stop` or a player that is not in `passed` and has a non-empty hand.
The Python `while` loop needs no fuel because the walk reaches `stop` after at
most `n` steps whenever `cur` and `stop` are in range; callers pass `n` as
fuel, which is enough in exactly those states. -/
def walkFrom (players : List Player) (passed : Finset Nat) (stop : Nat) :
    Nat → Nat → Nat
  | cur, 0 => cur
  | cur, fuel + 1 =>
    if cur = stop then cur
    else if cur ∉ passed ∧ ¬(handAt players cur).isEmpty then cur
    else walkFrom players passed stop ((cur + 1) % players.length) fuel

/-- `_start_new_round` from engine.py: bump the round counter, clear the pile
and the pass set, and give the lead to the winner — or, if the winner is out
of cards, to the next player with cards (falling back to `(winner+1) % n`
when nobody has cards). -/
def startNewRound (g : Game) (winner_idx : Nat) : Game :=
  let g := { g with
    rounds_completed := g.rounds_completed + 1,
    round := { g.round with pile := ⟨[]⟩, last_play_player_idx := -1 },
    passed_this_round := ∅ }
  let n := g.players.length
  let start_idx :=
    if (handAt g.players winner_idx).isEmpty then
      let s := walkFrom g.players ∅ winner_idx ((winner_idx + 1) % n) n
      if s = winner_idx then (winner_idx + 1) % n else s
    else winner_idx
  { g with
    round := { g.round with starting_player_idx := start_idx },
    current_player_idx := start_idx }

/-- The state of `apply_play` right after a successful card removal: new hand
set, play appended to the pile, last player recorded, trick reopened. -/
def playMid (g0 : Game) (player_idx : Nat) (play : Play) (hand' : List Card) : Game :=
  let g1 := setHand g0 player_idx hand'
  { g1 with
    round := { g1.round with
      pile := ⟨g1.round.pile.plays ++ [play]⟩,
      last_play_player_idx := (player_idx : Int) },
    passed_this_round := ∅ }

/-- The turn-advance block shared by both exits of `apply_play`: walk to the
next player who may act, or end the round. -/
def advanceOr (g : Game) (player_idx winner : Nat) : Game :=
  let n := g.players.length
  let next := walkFrom g.players g.passed_this_round player_idx ((player_idx + 1) % n) n
  if next = player_idx then startNewRound g winner
  else if (handAt g.players next).isEmpty then startNewRound g winner
  else { g with current_player_idx := next }

/-- The tail of `apply_play` after the cards were removed successfully:
append the play, reopen the trick, record an empty hand in `results`, and
advance the turn or end the round. -/
def applyPlaySuccess (g0 : Game) (player_idx : Nat) (play : Play) (hand' : List Card) : Game :=
  let player := g0.players.getD player_idx default
  let g := playMid g0 player_idx play hand'
  let n := g.players.length
  let winner : Nat :=
    if 0 ≤ g.round.last_play_player_idx then g.round.last_play_player_idx.toNat else player_idx
  if hand'.isEmpty then
    let g := { g with results := g.results ++ [player.id] }
    let others := (List.range n).filter
      (fun i => i ≠ player_idx && !(handAt g.players i).isEmpty)
    if others.isEmpty then startNewRound g winner
    else advanceOr g player_idx winner
  else advanceOr g player_idx winner

/-- The body of `apply_play` after the phase and turn guards: validate, then
remove the cards and advance. -/
def applyPlayChecked (g : Game) (player_idx : Nat) (play : Play) : Option String × Game :=
  let current := g.round.pile.currentPlay
  let numRequired : Option Nat :=
    match current with
    | some c => if c.cards.isEmpty then none else some c.cards.length
    | none => none
  let isFirstPlay :=
    match current with
    | none => true
    | some c => c.cards.isEmpty
  let must3c := isFirstPlay && g.round.starting_player_idx = player_idx
    && g.rounds_completed = 0
  if ¬isValidPlay play current numRequired then (some "Invalid play", g)
  else if must3c && ¬mustPlay3C play then (some "Must play 3C in first play", g)
  else
    match removePlayed play.cards (g.players.getD player_idx default).hand with
    | (some e, hand') => (some e, setHand g player_idx hand')
    | (none, hand') => (none, applyPlaySuccess g player_idx play hand')

/-- `GameEngine.apply_play` from engine.py: validate, remove the cards from the
hand, and advance.  Returns the error message (state unchanged up to the
partial card removal noted at `removePlayed`) or `none` on success. -/
def applyPlay (g : Game) (player_idx : Nat) (play : Play) : Option String × Game :=
  if g.phase ≠ .Playing then (some "Not in playing phase", g)
  else if g.current_player_idx ≠ player_idx then (some "Not your turn", g)
  else applyPlayChecked g player_idx play

/-- The body of `apply_pass` after the guards: record the pass, then end the
round or advance the turn. -/
def applyPassBody (g0 : Game) (player_idx : Nat) : Game :=
  let g := { g0 with passed_this_round := insert player_idx g0.passed_this_round }
  let n := g.players.length
  let winner : Nat :=
    if 0 ≤ g.round.last_play_player_idx then g.round.last_play_player_idx.toNat
    else player_idx
  let inPlay := (List.range n).filter
    (fun i => !(handAt g.players i).isEmpty && i ∉ g.passed_this_round)
  if inPlay.length = 0 then startNewRound g winner
  else
    let next := walkFrom g.players g.passed_this_round player_idx ((player_idx + 1) % n) n
    if next = player_idx then startNewRound g winner
    else if (handAt g.players next).isEmpty then startNewRound g winner
    else { g with current_player_idx := next }

/-- `GameEngine.apply_pass` from engine.py. -/
def applyPass (g : Game) (player_idx : Nat) : Option String × Game :=
  if g.phase ≠ .Playing then (some "Not in playing phase", g)
  else if g.current_player_idx ≠ player_idx then (some "Not your turn", g)
  else (none, applyPassBody g player_idx)

/-- The role-specific claim of `apply_claim_trade`: move the parked card into
the claimant's hand. -/
def claimTradeRole (g : Game) (player_idx ep_idx sh_idx : Nat) (role : String) :
    Option String × Game :=
  if role = "presidente" then
    if player_idx ≠ ep_idx then (some "Only El Presidente can claim the high card", g)
    else if g.trade_ep_claimed then (some "Already claimed", g)
    else
      match g.trade_high_card with
      | none => (some "No card to claim", g)
      | some c =>
        let newHand := sortByValue ((handAt g.players ep_idx) ++ [c])
        (none, { setHand g ep_idx newHand with
          trade_high_card := none, trade_ep_claimed := true })
  else if role = "shithead" then
    if player_idx ≠ sh_idx then (some "Only Shithead can claim the low card", g)
    else if g.trade_sh_claimed then (some "Already claimed", g)
    else
      match g.trade_low_card with
      | none => (some "No card to claim", g)
      | some c =>
        let newHand := sortByValue ((handAt g.players sh_idx) ++ [c])
        (none, { setHand g sh_idx newHand with
          trade_low_card := none, trade_sh_claimed := true })
  else (some "Invalid role", g)

/-- The common tail of `apply_claim_trade`: once both cards are claimed, start
playing with the 3♣ holder leading. -/
def claimFinish (g : Game) : Game :=
  if g.trade_ep_claimed && g.trade_sh_claimed then
    let start :=
      match g.players.findIdx? (fun p => p.hand.any is3C) with
      | some i => i
      | none => g.round.starting_player_idx
    { g with
      phase := .Playing,
      round := { g.round with starting_player_idx := start },
      current_player_idx := start }
  else g

/-- `GameEngine.apply_claim_trade` from engine.py. -/
def applyClaimTrade (g : Game) (player_id : String) (role : String) : Option String × Game :=
  if g.phase ≠ .Trading then (some "Not in trading phase", g)
  else
    let epIdx := g.players.findIdx? (fun p => p.past_accolade = .ElPresidente)
    let shIdx := g.players.findIdx? (fun p => p.past_accolade = .Shithead)
    match epIdx, shIdx with
    | none, _ => (some "No trade in progress", g)
    | _, none => (some "No trade in progress", g)
    | some ep_idx, some sh_idx =>
      match g.players.findIdx? (fun p => p.id = player_id) with
      | none => (some "You are not in this game", g)
      | some player_idx =>
        match claimTradeRole g player_idx ep_idx sh_idx role with
        | (some e, g) => (some e, g)
        | (none, g) => (none, claimFinish g)

/-- The accolade for finish position `i` of `n` players — the `elif` chain in
`assign_accolades` (position 0 wins even when `n = 1`). -/
def accFor (i n : Nat) : Accolade :=
  if i = 0 then .ElPresidente
  else if i = n - 1 then .Shithead
  else if i = 1 then .VP
  else .Pleb

/-- Set the accolade of the first player whose id is `pid`
(`next(x for x in game.players if x.id == pid)` followed by the assignment;
the exception Python would raise when no player matches never fires in the
states the theorems quantify over, where every result id belongs to a player). -/
def setAccFirst : List Player → String → Accolade → List Player
  | [], _, _ => []
  | p :: ps, pid, a =>
    if p.id = pid then { p with accolade := a } :: ps
    else p :: setAccFirst ps pid a

/-- The enumerate loop of `assign_accolades`. -/
def assignLoop (n : Nat) : List Player → Nat → List String → List Player
  | players, _, [] => players
  | players, i, pid :: rest => assignLoop n (setAccFirst players pid (accFor i n)) (i + 1) rest

/-- `GameEngine.assign_accolades` from engine.py. -/
def assignAccolades (g : Game) : Game :=
  let n := g.players.length
  let players1 := assignLoop n g.players 0 g.results
  let players2 := players1.map (fun p =>
    if p.id ∈ g.results then p else { p with accolade := .Shithead })
  { g with players := players2 }

/-- `GameEngine.remove_player_from_game` from engine.py.  Returns
`(ended, state)`; the index shifts mirror the Python `shift` closure, with the
`-1` sentinel handled on `Int` before clamping back to `Nat` exactly where the
source does. -/
def removePlayerFromGame (g : Game) (player_idx : Nat) : Bool × Game :=
  let n := g.players.length
  if player_idx ≥ n then (false, g)
  else
    let removed_id := (g.players.getD player_idx default).id
    let players1 := g.players.eraseIdx player_idx
    let shift : Int → Int := fun i =>
      if i = (player_idx : Int) then -1
      else if i > (player_idx : Int) then i - 1 else i
    let nn := players1.length
    if nn = 0 then (true, { g with players := players1 })
    else
      let curShifted := shift (g.current_player_idx : Int)
      let cur1 : Nat :=
        if curShifted = -1 ∨ curShifted ≥ (nn : Int) then
          let next_old := (player_idx + 1) % n
          let new_idx := if next_old > player_idx then next_old - 1 else next_old
          if new_idx ≥ nn then 0 else new_idx
        else curShifted.toNat
      let dealer1 : Nat :=
        let d := shift (g.dealer_idx : Int)
        if d < 0 then 0 else d.toNat
      let start1 : Nat :=
        let s := shift (g.round.starting_player_idx : Int)
        if s < 0 then 0 else s.toNat
      let lp1 : Int :=
        if g.round.last_play_player_idx = (player_idx : Int) then -1
        else shift g.round.last_play_player_idx
      let passed1 := (g.passed_this_round.filter
        (fun (i : Nat) => 0 ≤ shift (i : Int))).image (fun (i : Nat) => (shift (i : Int)).toNat)
      let g1 : Game := { g with
        players := players1,
        current_player_idx := cur1,
        dealer_idx := dealer1,
        round := { g.round with starting_player_idx := start1, last_play_player_idx := lp1 },
        results := g.results.filter (fun pid => pid ≠ removed_id),
        passed_this_round := passed1 }
      if nn < 2 then
        let g2 :=
          if nn = 1 then { g1 with results := g1.results ++ [(players1.getD 0 default).id] }
          else g1
        (true, assignAccolades g2)
      else (false, g1)

/-- The 2-player dealing loop of `start_new_game`: pattern (p0, p1, skip),
except a 3♣ on a skip slot is dealt to the current player.  `ci` is
`card_index`, `pi` is `player_idx`; returns the two hands in deal order. -/
def deal2go : List Card → Nat → Nat → List Card × List Card
  | [], _, _ => ([], [])
  | c :: rest, ci, pi =>
    let skip_slot := ci % 3 = 2
    if (skip_slot && is3C c) || !skip_slot then
      let hs := deal2go rest (ci + 1) (pi + 1)
      if pi % 2 = 0 then (c :: hs.1, hs.2) else (hs.1, c :: hs.2)
    else deal2go rest (ci + 1) pi

/-- The round-robin dealing loop of `start_new_game` for `n ≥ 3` players:
card `idx` goes to hand `idx % n`. -/
def dealNgo (n : Nat) : List Card → Nat → List (List Card) → List (List Card)
  | [], _, hands => hands
  | c :: rest, idx, hands =>
    dealNgo n rest (idx + 1) (hands.set (idx % n) ((hands.getD (idx % n) []) ++ [c]))

/-- Last index of a player with id `pid` — the `for i, p in enumerate(players)`
scans in `start_new_game` assign on every match without breaking. -/
def lastIdxWithId (players : List Player) (pid : String) : Option Nat :=
  (List.range players.length).foldl
    (fun acc i => if (players.getD i default).id = pid then some i else acc) none

/-- The trading-phase setup at the end of `start_new_game`: park the Shithead's
highest card and the El Presidente's lowest non-3♣ card in the centre. -/
def setupTrade (g : Game) (ep_idx sh_idx : Nat) : Game :=
  let shHand := handAt g.players sh_idx
  let g1 : Game :=
    match getHighestCard shHand with
    | some high => { setHand g sh_idx (shHand.erase high) with trade_high_card := some high }
    | none => g
  let epHand := handAt g1.players ep_idx
  let g2 : Game :=
    match getLowestCard epHand true with
    | some low => { setHand g1 ep_idx (epHand.erase low) with trade_low_card := some low }
    | none => g1
  { g2 with trade_ep_claimed := false, trade_sh_claimed := false }

/-- `GameEngine.start_new_game` from engine.py, with the shuffled deck as an
input (the shuffle itself is the injected random source).  Returns `none` where
the source raises `ValueError("Need 2-7 players")`.  `if prev_el_presidente_id
and prev_shithead_id` is Python truthiness: both non-`None` and non-empty. -/
def startNewGame (deck : List Card) (room_players : List Player)
    (prev_dealer_idx : Option Nat) (prev_ep prev_sh : Option String) : Option Game :=
  let n := room_players.length
  if n < 2 ∨ 7 < n then none
  else
    let players0 : List Player := room_players.map (fun rp =>
      { id := rp.id, name := rp.name, past_accolade := rp.past_accolade,
        accolade := Accolade.Pleb, hand := ([] : List Card) })
    let dealer_idx :=
      match prev_dealer_idx with
      | some d => (d + 1) % n
      | none => 0
    let players1 :=
      if n = 2 then
        let hs := deal2go deck 0 0
        players0.zipWith (fun p h => { p with hand := h }) [hs.1, hs.2]
      else
        players0.zipWith (fun p h => { p with hand := h })
          (dealNgo n deck 0 (players0.map (fun _ => [])))
    let players2 := players1.map (fun p =>
      { p with hand := sortByValue p.hand })
    let bothSet :=
      (match prev_ep with | some s => s ≠ "" | none => false) &&
      (match prev_sh with | some s => s ≠ "" | none => false)
    let epIdx : Option Nat :=
      if bothSet then lastIdxWithId players2 (prev_ep.getD "") else none
    let shIdx : Option Nat :=
      if bothSet then lastIdxWithId players2 (prev_sh.getD "") else none
    let phase : GamePhase :=
      if epIdx.isSome && shIdx.isSome then .Trading else .Playing
    let starting :=
      if phase = .Playing then
        match players2.findIdx? (fun p => p.hand.any is3C) with
        | some i => i
        | none => 0
      else 0
    let current := if phase = .Playing then starting else 0
    let g0 : Game := {
      dealer_idx := dealer_idx,
      current_player_idx := current,
      players := players2,
      round := ⟨starting, ⟨[]⟩, -1⟩,
      phase := phase,
      results := [],
      passed_this_round := ∅,
      rounds_completed := 0,
      trade_high_card := none,
      trade_low_card := none,
      trade_ep_claimed := false,
      trade_sh_claimed := false }
    if phase = .Trading then some (setupTrade g0 (epIdx.getD 0) (shIdx.getD 0))
    else some g0

/-- One entry of the `players_view` list built by `game_state_for_client`
(server.py).  `hand` is an `Option`: `some` models the presence of the JSON
`"hand"` key, `none` its absence. -/
structure PlayerView where
  id : String
  name : String
  past_accolade : Accolade
  accolade : Accolade
  card_count : Nat
  in_results : Bool
  result_position : Option Nat
  disconnected : Bool
  hand : Option (List Card)
deriving DecidableEq, Repr

/-- The player-index lookup of `game_state_for_client`: first player whose id
equals the recipient's (ids are strings on both sides, so the `str(...)`
normalisation is the identity). -/
def findPlayerIdx (g : Game) (player_id : String) : Option Nat :=
  g.players.findIdx? (fun p => p.id = player_id)

/-- The view of one player as built in the `for i, p in enumerate(g.players)`
loop: the `hand` key is added only when `player_idx` is this `i`.
`disconnected` abstracts the `DISCONNECT_TASKS` liveness lookup as a predicate
on player ids. -/
def mkPlayerView (g : Game) (player_idx : Option Nat) (disconnected : String → Bool)
    (i : Nat) (p : Player) : PlayerView :=
  { id := p.id,
    name := p.name,
    past_accolade := p.past_accolade,
    accolade := p.accolade,
    card_count := p.hand.length,
    in_results := p.id ∈ g.results,
    result_position :=
      if p.id ∈ g.results then some (g.results.indexOf p.id + 1) else none,
    disconnected := disconnected p.id,
    hand := if player_idx = some i then some p.hand_sorted else none }

/-- The enumerate loop building `players_view`. -/
def playersViewGo (g : Game) (player_idx : Option Nat) (disconnected : String → Bool) :
    Nat → List Player → List PlayerView
  | _, [] => []
  | i, p :: ps => mkPlayerView g player_idx disconnected i p :: playersViewGo g player_idx disconnected (i + 1) ps

/-- The `players` list of the state object `game_state_for_client` sends to
recipient `player_id` when a game is in progress (the per-player filtering at
server.py lines 93-112; the rest of the state object carries no per-player
hand data). -/
def clientPlayersView (g : Game) (player_id : Option String) (disconnected : String → Bool) :
    List PlayerView :=
  let player_idx :=
    match player_id with
    | some pid => findPlayerIdx g pid
    | none => none
  playersViewGo g player_idx disconnected 0 g.players

/-- The `trading` object of the state: `_get_trading_info` from server.py. -/
structure TradingInfo where
  high_card : Option Card
  low_card : Option Card
  ep_claimed : Bool
  sh_claimed : Bool
  face_down : Bool
  trade_count : Nat
deriving DecidableEq, Repr

/-- `_get_trading_info` from server.py: trade cards face up for the previous
El Presidente and Shithead, face down for everyone else. -/
def getTradingInfo (g : Game) (player_id : Option String) : Option TradingInfo :=
  if g.trade_high_card = none ∧ g.trade_low_card = none
      ∧ g.trade_ep_claimed ∧ g.trade_sh_claimed then none
  else
    let pr : Bool × Bool :=
      match player_id with
      | none => (false, false)
      | some pid =>
        match g.players.find? (fun p => p.id = pid) with
        | some p => (p.past_accolade = .ElPresidente, p.past_accolade = .Shithead)
        | none => (false, false)
    let face_up := pr.1 || pr.2
    some {
      high_card := if face_up then g.trade_high_card else none,
      low_card := if face_up then g.trade_low_card else none,
      ep_claimed := g.trade_ep_claimed,
      sh_claimed := g.trade_sh_claimed,
      face_down := !face_up,
      trade_count := (if g.trade_high_card.isSome then 1 else 0)
        + (if g.trade_low_card.isSome then 1 else 0) }

/-- Outcome of one resolution pass of the restart vote. -/
inductive VoteOutcome where
  | passed
  | rejected
  | stillOpen
deriving DecidableEq, Repr

/-- Yes-votes among the eligible voters (`sum(1 for pid in voters if
votes.get(str(pid)) == "yes")`); a vote is `some true` for yes, `some false`
for no, `none` when the voter has not voted. -/
def yesCount (voters : List String) (votes : String → Option Bool) : Nat :=
  (voters.filter (fun pid => votes pid = some true)).length

/-- No-votes among the eligible voters. -/
def noCount (voters : List String) (votes : String → Option Bool) : Nat :=
  (voters.filter (fun pid => votes pid = some false)).length

/-- `votes_needed` in `_resolve_restart_vote`: all of them for 2 voters,
`(n + 1) // 2` (the ceiling of `n / 2`) otherwise. -/
def votesNeeded (n : Nat) : Nat :=
  if n = 2 then n else (n + 1) / 2

/-- The tally decision of `_resolve_restart_vote` (server.py lines 616-659):
pass on enough yes votes, else reject once too many no votes, else keep the
vote open. -/
def resolveTally (voters : List String) (votes : String → Option Bool) : VoteOutcome :=
  if yesCount voters votes ≥ votesNeeded voters.length then .passed
  else if noCount voters votes > voters.length - votesNeeded voters.length then .rejected
  else .stillOpen

/-- `DICK_TAG_COOLDOWN_SECONDS` from server.py. -/
def DICK_TAG_COOLDOWN_SECONDS : ℚ := 15

/-- `handle_tag_dick` from server.py, with `time.time()` passed in as `now`.
`if not target_id` is Python truthiness (`None` or the empty string); the
target is normalised to a string by the source, which is the identity here.
Returns the error (state unchanged) or `none` with the updated room. -/
def handleTagDick (room : GameRoom) (player_id : String) (target : Option String)
    (now : ℚ) : Option String × GameRoom :=
  match target with
  | none => (some "No target player specified", room)
  | some target_id =>
    if target_id = "" then (some "No target player specified", room)
    else if target_id = player_id then (some "Cannot tag yourself", room)
    else if ¬room.players.any (fun p => p.id = target_id) then
      (some "Player not in room", room)
    else
      match room.dick_tagged_player_id with
      | some current =>
        if current = target_id then
          -- Toggle off: only holder can remove it from themselves
          if player_id ≠ current then
            (some "Only the current holder can remove the plant", room)
          else (none, { room with dick_tagged_player_id := none, dick_tagged_at := none })
        else
          -- Someone has it: only holder can transfer, and only after 15 seconds
          if player_id ≠ current then
            (some "Only the current holder can pass the plant", room)
          else
            let elapsed := now - (room.dick_tagged_at.getD 0)
            if elapsed < DICK_TAG_COOLDOWN_SECONDS then
              let remaining : Int := ⌊DICK_TAG_COOLDOWN_SECONDS - elapsed⌋
              (some (s!"Wait {remaining}s before passing the plant"), room)
            else
              (none,
                { room with
                  dick_tagged_player_id := some target_id
                  dick_tagged_at := some now })
      | none =>
        -- No one has it: anyone can grant
        (none,
          { room with
            dick_tagged_player_id := some target_id
            dick_tagged_at := some now })

/-! ### Ghost definitions used only in theorem statements -/

/-- Cards currently on the pile. -/
def pileCards (g : Game) : Nat :=
  (g.round.pile.plays.map (fun p => p.cards.length)).sum

/-- Count of an optional parked trade card. -/
def optCount (c : Option Card) : Nat := if c.isSome then 1 else 0

/-- The conservation ledger: cards in hands, on the pile, and parked in the
trade centre. -/
def totalCards (g : Game) : Nat :=
  (g.players.map (fun p => p.hand.length)).sum + pileCards g
    + optCount g.trade_high_card + optCount g.trade_low_card

/-- Number of players still holding cards. -/
def cntWithCards (g : Game) : Nat :=
  ((List.range g.players.length).filter (fun i => !(handAt g.players i).isEmpty)).length

/-- Index well-formedness: the bounds Python's list indexing silently assumes. -/
def WF (g : Game) : Prop :=
  0 < g.players.length ∧ g.current_player_idx < g.players.length ∧
    (0 ≤ g.round.last_play_player_idx → g.round.last_play_player_idx < (g.players.length : Int))

instance (g : Game) : Decidable (WF g) := by unfold WF; infer_instance

/-- Turn well-formedness: in the Playing phase of a game that is not over
(two or more players still hold cards), the acting player holds cards. -/
def TurnInv (g : Game) : Prop :=
  g.phase = .Playing → 2 ≤ cntWithCards g → ¬(handAt g.players g.current_player_idx).isEmpty

instance (g : Game) : Decidable (TurnInv g) := by unfold TurnInv; infer_instance

/-- The full invariant of claim C4. -/
def Inv (g : Game) : Prop := WF g ∧ TurnInv g

instance (g : Game) : Decidable (Inv g) := by unfold Inv; infer_instance

/-- Steps of the circular walk from `cur` to `stop` modulo `n` (proof-side
measure for `walkFrom`). -/
def walkDist (n stop cur : Nat) : Nat :=
  if cur ≤ stop then stop - cur else stop + n - cur

/-- The freshly reset 52-card deck (`CardDeck.reset`): ranks outer, suits inner. -/
def standardDeck : List Card :=
  RANK_ORDER.flatMap (fun r => SUIT_ORDER.map (fun s => ⟨r, s⟩))

/-- How many cards of `d` the 2-player loop deals when starting at card index
`ci` (skip slots withhold their card unless it is the 3♣). -/
def dealtCount : List Card → Nat → Nat
  | [], _ => 0
  | c :: rest, ci =>
    (if ci % 3 = 2 then (if is3C c then 1 else 0) else 1) + dealtCount rest (ci + 1)

/-- Number of skip slots among `m` consecutive card indices starting at `ci`. -/
def skipSlots : Nat → Nat → Nat
  | 0, _ => 0
  | m + 1, ci => (if ci % 3 = 2 then 1 else 0) + skipSlots m (ci + 1)

instance : Inhabited Game := ⟨{
  dealer_idx := 0, current_player_idx := 0, players := [],
  round := ⟨0, ⟨[]⟩, -1⟩, phase := .Playing, results := [],
  passed_this_round := ∅, rounds_completed := 0,
  trade_high_card := none, trade_low_card := none,
  trade_ep_claimed := false, trade_sh_claimed := false }⟩

instance : Inhabited PlayerView :=
  ⟨⟨"", "", .Pleb, .Pleb, 0, false, none, false, none⟩⟩

/-- A plain player literal used by the concrete example states below. -/
def mkP (i : String) (h : List Card) : Player :=
  { id := i, name := i, past_accolade := .Pleb, accolade := .Pleb, hand := h }

/-! ### Concrete example states, one batch per claim -/

/-- Example state for C1: player "a" to move in a two-player game. -/
def gC1 : Game := {
  dealer_idx := 0, current_player_idx := 0,
  players := [mkP "a" [⟨'3','C'⟩, ⟨'7','H'⟩], mkP "b" [⟨'4','D'⟩]],
  round := ⟨0, ⟨[]⟩, -1⟩, phase := .Playing, results := [],
  passed_this_round := ∅, rounds_completed := 0,
  trade_high_card := none, trade_low_card := none,
  trade_ep_claimed := false, trade_sh_claimed := false }

/-- The view the recipient "a" receives of themselves in `gC1`. -/
def vC1 : PlayerView :=
  (clientPlayersView gC1 (some "a") (fun _ => false)).headD default

/-- Example state for C2: player "a" holds one 3♣ and tries to play it twice. -/
def gC2 : Game := {
  dealer_idx := 0, current_player_idx := 0,
  players := [mkP "a" [⟨'3','C'⟩, ⟨'4','D'⟩], mkP "b" [⟨'3','D'⟩]],
  round := ⟨0, ⟨[]⟩, -1⟩, phase := .Playing, results := [],
  passed_this_round := ∅, rounds_completed := 0,
  trade_high_card := none, trade_low_card := none,
  trade_ep_claimed := false, trade_sh_claimed := false }

/-- Example state for C3: trading phase with parked cards; "e" was El
Presidente, "s" was Shithead, "o" a Pleb spectator to the trade. -/
def gC3 : Game := {
  dealer_idx := 0, current_player_idx := 0,
  players := [
    { mkP "e" [⟨'4','C'⟩] with past_accolade := .ElPresidente },
    { mkP "s" [⟨'5','C'⟩] with past_accolade := .Shithead },
    mkP "o" [⟨'6','C'⟩]],
  round := ⟨0, ⟨[]⟩, -1⟩, phase := .Trading, results := [],
  passed_this_round := ∅, rounds_completed := 0,
  trade_high_card := some ⟨'A','S'⟩, trade_low_card := some ⟨'3','D'⟩,
  trade_ep_claimed := false, trade_sh_claimed := false }

/-- Example state for C4: "a" already went out, "d" (the acting player) is
about to be ejected while "b" and "c" still hold cards. -/
def gC4 : Game := {
  dealer_idx := 0, current_player_idx := 3,
  players := [mkP "a" [], mkP "b" [⟨'5','C'⟩], mkP "c" [⟨'6','C'⟩], mkP "d" [⟨'7','C'⟩]],
  round := ⟨1, ⟨[⟨[⟨'4','C'⟩]⟩]⟩, 1⟩, phase := .Playing, results := ["a"],
  passed_this_round := ∅, rounds_completed := 1,
  trade_high_card := none, trade_low_card := none,
  trade_ep_claimed := false, trade_sh_claimed := false }

/-- Example state for C5: the game freshly dealt to two players from the reset
(unshuffled) deck order. -/
def gC5 : Game := (startNewGame standardDeck [mkP "a" [], mkP "b" []] none none none).getD default

/-- C5 scenario, step 1: the 3♣ holder leads the 3♣. -/
def gC5a : Game := (applyPlay gC5 0 ⟨[⟨'3','C'⟩]⟩).2

/-- C5 scenario, step 2: the other player passes. -/
def gC5b : Game := (applyPass gC5a 1).2

/-- C5 scenario, step 3: the leader passes too, ending the round. -/
def gC5c : Game := (applyPass gC5b 0).2

/-- Deck ordering for C6: the reset deck with the 3♣ moved to index 2, a
withheld slot of the 2-player pattern. -/
def deckC6 : List Card :=
  ⟨'3','D'⟩ :: ⟨'3','H'⟩ :: ⟨'3','C'⟩ :: ⟨'3','S'⟩ :: standardDeck.drop 4

/-- Example state for C7: a finished three-player game before accolades. -/
def gC7 : Game := {
  dealer_idx := 0, current_player_idx := 0,
  players := [mkP "a" [], mkP "b" [], mkP "c" []],
  round := ⟨0, ⟨[]⟩, -1⟩, phase := .Playing, results := ["b", "c", "a"],
  passed_this_round := ∅, rounds_completed := 3,
  trade_high_card := none, trade_low_card := none,
  trade_ep_claimed := false, trade_sh_claimed := false }

/-- Example room for C9: "h" has held the dick tag since time 0. -/
def roomC9 : GameRoom := {
  name := "r", current_game := none,
  players := [mkP "h" [], mkP "o" []],
  spectator_preferences := [],
  dick_tagged_player_id := some "h", dick_tagged_at := some 0 }

/-! ## Theorems -/

/-- C2: `apply_play` is claimed to leave the state unchanged whenever it
returns an error.  It does not: from a state where player 0 holds exactly one
3♣ (plus a 4♦), playing the pair [3♣, 3♣] passes validation, removes the one
3♣ from the hand, then fails on the second copy — the call returns the error
"Card not in hand" with the 3♣ already gone from the hand. -/
theorem C2_apply_play_error_mutates :
    (applyPlay gC2 0 ⟨[⟨'3','C'⟩, ⟨'3','C'⟩]⟩).1 = some "Card not in hand" ∧
    (gC2.players.getD 0 default).hand = [⟨'3','C'⟩, ⟨'4','D'⟩] ∧
    ((applyPlay gC2 0 ⟨[⟨'3','C'⟩, ⟨'3','C'⟩]⟩).2.players.getD 0 default).hand = [⟨'4','D'⟩] ∧
    (applyPlay gC2 0 ⟨[⟨'3','C'⟩, ⟨'3','C'⟩]⟩).2 ≠ gC2 := by
  refine ⟨by decide, by decide, by decide, by decide⟩

/-- C9: the claim says the dick-tag holder can clear the tag from themselves
at any time.  The code's self-target guard fires before the toggle-off branch,
so a holder naming themselves is always rejected with "Cannot tag yourself"
and the tag stays put (the toggle-off branch is unreachable). -/
theorem C9_holder_cannot_clear :
    roomC9.dick_tagged_player_id = some "h" ∧
    (handleTagDick roomC9 "h" (some "h") 1000).1 = some "Cannot tag yourself" ∧
    (handleTagDick roomC9 "h" (some "h") 1000).2 = roomC9 := by
  refine ⟨by decide, by decide, by decide⟩

/-- C3 counterexample: in the trading phase of `gC3` the recipient "s", whose
past accolade is Shithead, receives the parked high card (the card whose role
is the incoming El Presidente's) face-up — the claim that a parked card's
value is visible only to the recipient whose accolade matches that card's
role is false. -/
theorem C3_counterexample :
    (gC3.players.find? (fun p => p.id = "s")).map Player.past_accolade
      = some Accolade.Shithead ∧
    (getTradingInfo gC3 (some "s")).map TradingInfo.high_card = some (some ⟨'A','S'⟩) := by
  refine ⟨by decide, by decide⟩

/-- C4 counterexample: `gC4` satisfies the turn invariant (acting player 3
holds a card, and the game is not over), yet removing player 3 — exactly what
`remove_player_from_game` does on ejection — hands the turn to old index 0,
a player with an empty hand, while two players still hold cards.  The
invariant is therefore not preserved by `remove_player_from_game`. -/
theorem C4_counterexample :
    Inv gC4 ∧ (removePlayerFromGame gC4 3).1 = false ∧
    (removePlayerFromGame gC4 3).2.phase = GamePhase.Playing ∧
    2 ≤ cntWithCards (removePlayerFromGame gC4 3).2 ∧
    (handAt (removePlayerFromGame gC4 3).2.players
      (removePlayerFromGame gC4 3).2.current_player_idx).isEmpty = true := by
  refine ⟨by decide, by decide, by decide, by decide, by decide⟩

/-- C5 counterexample: from the freshly dealt two-player game `gC5`
(35 cards in hands, 17 withheld, so the ledger is 52), the legal sequence
"player 0 leads the 3♣, player 1 passes, player 0 passes" ends the round; the
end-of-round procedure clears the pile and the played 3♣ leaves every tracked
quantity: hands + pile + trade + withheld is now 51, not 52, with no player
ejected. -/
theorem C5_counterexample :
    totalCards gC5 + 17 = 52 ∧
    (applyPlay gC5 0 ⟨[⟨'3','C'⟩]⟩).1 = none ∧
    (applyPass gC5a 1).1 = none ∧
    (applyPass gC5b 0).1 = none ∧
    totalCards gC5c + 17 = 51 := by
  refine ⟨by decide, by decide, by decide, by decide, by decide⟩

/-- Two disjoint filters of one list together keep at most all its elements. -/
theorem filter_disjoint_length_le {α : Type} (l : List α) (p q : α → Bool)
    (h : ∀ x, ¬(p x = true ∧ q x = true)) :
    (l.filter p).length + (l.filter q).length ≤ l.length := by
  induction l with
  | nil => simp
  | cons x xs ih =>
    cases hp : p x with
    | true =>
      have hq : q x = false := by
        cases hqx : q x
        · rfl
        · exact absurd ⟨hp, hqx⟩ (h x)
      simp [List.filter_cons, hp, hq]
      omega
    | false =>
      cases hq : q x <;> simp [List.filter_cons, hp, hq] <;> omega

/-- The quota never exceeds the number of voters. -/
theorem votesNeeded_le (n : Nat) : votesNeeded n ≤ n := by
  unfold votesNeeded
  split <;> omega

/-- C8: one resolution pass of the restart vote passes exactly when the yes
count reaches the quota (all voters when there are two of them, the ceiling of
half otherwise), rejects exactly when the no count strictly exceeds the number
of voters minus the quota, and stays open exactly otherwise. -/
theorem C8_vote_resolution (voters : List String) (votes : String → Option Bool) :
    (resolveTally voters votes = .passed
      ↔ votesNeeded voters.length ≤ yesCount voters votes) ∧
    (resolveTally voters votes = .rejected
      ↔ voters.length - votesNeeded voters.length < noCount voters votes) ∧
    (resolveTally voters votes = .stillOpen
      ↔ yesCount voters votes < votesNeeded voters.length
        ∧ noCount voters votes ≤ voters.length - votesNeeded voters.length) := by
  have hcount : yesCount voters votes + noCount voters votes ≤ voters.length := by
    refine filter_disjoint_length_le voters _ _ (fun x => ?_)
    rintro ⟨hy, hn⟩
    simp only [decide_eq_true_eq] at hy hn
    rw [hy] at hn
    simp at hn
  have hneed := votesNeeded_le voters.length
  unfold resolveTally
  split_ifs with h1 h2 <;>
    refine ⟨?_, ?_, ?_⟩ <;>
    simp only [reduceCtorEq, false_iff, true_iff, iff_true, iff_false, not_and, not_le, not_lt] <;>
    omega

/-- `findIdx?` returns an in-range index whose element satisfies the test. -/
theorem findIdx?_some_getD {α : Type} [Inhabited α] {l : List α} {p : α → Bool} {i : Nat}
    (h : l.findIdx? p = some i) : i < l.length ∧ p (l.getD i default) = true := by
  rw [List.findIdx?_eq_some_iff_getElem] at h
  obtain ⟨hlt, hp, -⟩ := h
  exact ⟨hlt, by rwa [List.getD_eq_getElem l default hlt]⟩

/-- The recipient-index lookup only ever returns the index of a player whose
id is the recipient's. -/
theorem findPlayerIdx_id (g : Game) (pid : String) (i : Nat)
    (h : findPlayerIdx g pid = some i) : (g.players.getD i default).id = pid := by
  have := (findIdx?_some_getD h).2
  simpa using this

/-- A view built by the enumerate loop carries a hand only when the loop index
matches the recipient index, and then its id is that player's id. -/
theorem playersViewGo_hand (g : Game) (pidx : Option Nat) (dis : String → Bool) :
    ∀ (ps : List Player) (i : Nat) (v : PlayerView),
      v ∈ playersViewGo g pidx dis i ps → v.hand ≠ none →
      ∃ k, k < ps.length ∧ pidx = some (i + k) ∧ v.id = (ps.getD k default).id := by
  intro ps
  induction ps with
  | nil => intro i v hv; simp [playersViewGo] at hv
  | cons p rest ih =>
    intro i v hv hh
    simp only [playersViewGo, List.mem_cons] at hv
    rcases hv with rfl | hv
    · refine ⟨0, by simp, ?_, by simp [mkPlayerView]⟩
      simp only [mkPlayerView] at hh
      by_cases hpe : pidx = some i
      · simpa using hpe
      · rw [if_neg hpe] at hh
        exact absurd rfl hh
    · obtain ⟨k, hk, hp, hid⟩ := ih (i + 1) v hv hh
      exact ⟨k + 1, by simpa using hk, by rwa [Nat.add_assoc, Nat.add_comm 1 k] at hp, by simpa using hid⟩

/-- C1: in the per-recipient state built by `game_state_for_client`, a player
entry carries the `hand` field only when that entry's id is the recipient's id;
every other player's entry has no `hand` field, for every game and recipient. -/
theorem C1_view_hand_only_recipient (g : Game) (pid : String) (dis : String → Bool)
    (v : PlayerView) (hv : v ∈ clientPlayersView g (some pid) dis)
    (hh : v.hand ≠ none) : v.id = pid := by
  unfold clientPlayersView at hv
  obtain ⟨k, hk, hp, hid⟩ := playersViewGo_hand g (findPlayerIdx g pid) dis g.players 0 v hv hh
  rw [Nat.zero_add] at hp
  rw [hid]
  exact findPlayerIdx_id g pid k hp

/-- C1 witness: in `gC1`, recipient "a" receives their own view with the hand
present, and its id is "a". -/
theorem C1_witness :
    vC1 ∈ clientPlayersView gC1 (some "a") (fun _ => false) ∧
    vC1.hand ≠ none ∧ vC1.id = "a" :=
  ⟨by decide, by decide,
    C1_view_hand_only_recipient gC1 "a" (fun _ => false) vC1 (by decide) (by decide)⟩

/-- Inserting grows the sorted list by one. -/
theorem length_insertByValue (c : Card) (l : List Card) :
    (insertByValue c l).length = l.length + 1 := by
  induction l with
  | nil => rfl
  | cons x xs ih =>
    unfold insertByValue
    split
    · simp
    · simp [ih]

/-- Sorting preserves length. -/
theorem length_sortByValue (l : List Card) : (sortByValue l).length = l.length := by
  induction l with
  | nil => rfl
  | cons x xs ih =>
    show (insertByValue x (sortByValue xs)).length = xs.length + 1
    rw [length_insertByValue, ih]

/-- Inserting is a permutation step. -/
theorem insertByValue_perm (c : Card) (l : List Card) :
    List.Perm (insertByValue c l) (c :: l) := by
  induction l with
  | nil => exact List.Perm.refl _
  | cons x xs ih =>
    unfold insertByValue
    split
    · exact List.Perm.refl _
    · exact (List.Perm.cons x ih).trans (List.Perm.swap c x xs)

/-- Sorting permutes the hand. -/
theorem sortByValue_perm (l : List Card) : List.Perm (sortByValue l) l := by
  induction l with
  | nil => exact List.Perm.refl _
  | cons x xs ih =>
    exact (insertByValue_perm x (sortByValue xs)).trans (List.Perm.cons x ih)

/-- `find?` over a list with unique ids returns the unique player with the
sought id. -/
theorem find?_id_unique (players : List Player) (pid : String)
    (hnd : (players.map Player.id).Nodup) (p : Player) (hp : p ∈ players) (hid : p.id = pid) :
    players.find? (fun q => q.id = pid) = some p := by
  induction players with
  | nil => cases hp
  | cons q rest ih =>
    simp only [List.map_cons, List.nodup_cons] at hnd
    rcases List.mem_cons.mp hp with rfl | hmem
    · exact List.find?_cons_of_pos rest (by simpa using hid)
    · have hqid : q.id ≠ pid := by
        intro he
        have hpm : p.id ∈ List.map Player.id rest := List.mem_map_of_mem Player.id hmem
        rw [hid, ← he] at hpm
        exact hnd.1 hpm
      rw [List.find?_cons_of_neg rest (by simpa using hqid)]
      exact ih hnd.2 hmem

/-- C3 (amended): during trading, the parked card values are face-up in a
recipient's view exactly when the recipient was the previous El Presidente
or the previous Shithead — either privileged role sees both parked cards;
every other recipient sees no card values and a face-down marker. -/
theorem C3_trade_visibility (g : Game) (pid : String) (info : TradingInfo)
    (hnd : (g.players.map Player.id).Nodup)
    (hinfo : getTradingInfo g (some pid) = some info) :
    ((info.high_card ≠ none ∨ info.low_card ≠ none) →
      ∃ p ∈ g.players, p.id = pid
        ∧ (p.past_accolade = .ElPresidente ∨ p.past_accolade = .Shithead)) ∧
    ((∃ p ∈ g.players, p.id = pid
        ∧ (p.past_accolade = .ElPresidente ∨ p.past_accolade = .Shithead)) →
      info.high_card = g.trade_high_card ∧ info.low_card = g.trade_low_card
        ∧ info.face_down = false) ∧
    ((¬∃ p ∈ g.players, p.id = pid
        ∧ (p.past_accolade = .ElPresidente ∨ p.past_accolade = .Shithead)) →
      info.high_card = none ∧ info.low_card = none ∧ info.face_down = true) := by
  unfold getTradingInfo at hinfo
  split at hinfo
  · exact Option.noConfusion hinfo
  cases hfind : g.players.find? (fun p => p.id = pid) with
  | some p0 =>
    have hp0mem : p0 ∈ g.players := List.mem_of_find?_eq_some hfind
    have hp0id : p0.id = pid := by
      have := List.find?_some hfind
      simpa using this
    simp only [hfind] at hinfo
    simp only [Option.some.injEq] at hinfo
    subst hinfo
    by_cases hpriv : p0.past_accolade = Accolade.ElPresidente
        ∨ p0.past_accolade = Accolade.Shithead
    · have hface : (decide (p0.past_accolade = Accolade.ElPresidente)
          || decide (p0.past_accolade = Accolade.Shithead)) = true := by
        rcases hpriv with h | h <;> simp [h]
      exact ⟨fun _ => ⟨p0, hp0mem, hp0id, hpriv⟩,
        fun _ => by simp [hface],
        fun hno => absurd ⟨p0, hp0mem, hp0id, hpriv⟩ hno⟩
    · have hface : (decide (p0.past_accolade = Accolade.ElPresidente)
          || decide (p0.past_accolade = Accolade.Shithead)) = false := by
        rcases not_or.mp hpriv with ⟨h1, h2⟩
        simp [h1, h2]
      refine ⟨fun hval => ?_, fun hex => ?_, fun _ => by simp [hface]⟩
      · exfalso
        rcases hval with hv | hv <;> simp [hface] at hv
      · exfalso
        obtain ⟨p, hpm, hpi, hpa⟩ := hex
        have huniq := find?_id_unique g.players pid hnd p hpm hpi
        rw [hfind] at huniq
        simp only [Option.some.injEq] at huniq
        subst huniq
        exact hpriv hpa
  | none =>
    simp only [hfind] at hinfo
    simp only [Option.some.injEq] at hinfo
    subst hinfo
    have hno : ¬∃ p ∈ g.players, p.id = pid
        ∧ (p.past_accolade = .ElPresidente ∨ p.past_accolade = .Shithead) := by
      rintro ⟨p, hpm, hpi, -⟩
      have := List.find?_eq_none.mp hfind p hpm
      simp [hpi] at this
    refine ⟨fun hval => ?_, fun hex => absurd hex hno, fun _ => by simp⟩
    rcases hval with hv | hv <;> simp at hv

/-- C3 witness: in `gC3`, the Pleb recipient "o" (not a privileged role) gets
a trading object with no card values and the face-down marker. -/
theorem C3_witness :
    (gC3.players.map Player.id).Nodup ∧
    getTradingInfo gC3 (some "o")
      = some ⟨none, none, false, false, true, 2⟩ ∧
    ((⟨none, none, false, false, true, 2⟩ : TradingInfo).high_card = none ∧
      (⟨none, none, false, false, true, 2⟩ : TradingInfo).low_card = none ∧
      (⟨none, none, false, false, true, 2⟩ : TradingInfo).face_down = true) :=
  ⟨by decide, by decide,
    (C3_trade_visibility gC3 "o" ⟨none, none, false, false, true, 2⟩
      (by decide) (by decide)).2.2 (by decide)⟩

/-- Ranks surviving the first-occurrence dedup come from the scanned list. -/
theorem firstOccur_subset (seen l : List Char) (r : Char) (h : r ∈ firstOccur seen l) :
    r ∈ l := by
  induction l generalizing seen with
  | nil => cases h
  | cons x xs ih =>
    unfold firstOccur at h
    by_cases hx : x ∈ seen
    · rw [if_pos hx] at h
      exact List.mem_cons_of_mem x (ih seen h)
    · rw [if_neg hx] at h
      rcases List.mem_cons.mp h with rfl | h'
      · exact List.mem_cons_self r xs
      · exact List.mem_cons_of_mem x (ih (x :: seen) h')

/-- Combinations of zero cards: exactly the empty combination. -/
theorem combos_zero (l : List Card) : combos l 0 = [[]] := by
  cases l <;> rfl

/-- Singleton combinations of a non-empty list exist. -/
theorem combos_one_ne_nil (c : Card) (cs : List Card) : combos (c :: cs) 1 ≠ [] := by
  intro h
  have h' : ((combos cs 0).map (fun l => c :: l)) ++ combos cs (0 + 1) = [] := h
  rcases List.append_eq_nil.mp h' with ⟨h1, -⟩
  rw [combos_zero] at h1
  cases h1

/-- A non-empty hand always yields a rank group with cards in `by_rank`. -/
theorem byRank_head_group (c0 : Card) (rest : List Card) :
    ∃ rc ∈ byRank (c0 :: rest), rc.2 ≠ [] := by
  have hne : firstOccur [] ((c0 :: rest).map (fun c => c.rank)) ≠ [] := by
    unfold firstOccur
    simp
  cases hfo : firstOccur [] ((c0 :: rest).map (fun c => c.rank)) with
  | nil => exact absurd hfo hne
  | cons r rs =>
    refine ⟨(r, sortByValue (((c0 :: rest)).filter (fun c => c.rank = r))), ?_, ?_⟩
    · unfold byRank
      rw [hfo]
      exact List.mem_cons_self _ _
    · have hrl : r ∈ (c0 :: rest).map (fun c => c.rank) :=
        firstOccur_subset [] _ r (hfo ▸ List.mem_cons_self r rs)
      obtain ⟨c, hc, hcr⟩ := List.mem_map.mp hrl
      have hfil : c ∈ ((c0 :: rest)).filter (fun c => c.rank = r) :=
        List.mem_filter.mpr ⟨hc, by simpa using hcr⟩
      intro hnil
      have hnil' : sortByValue (((c0 :: rest)).filter (fun c => c.rank = r)) = [] := hnil
      have hlen := length_sortByValue (((c0 :: rest)).filter (fun c => c.rank = r))
      rw [hnil'] at hlen
      have hfe : ((c0 :: rest)).filter (fun c => c.rank = r) = [] :=
        List.eq_nil_of_length_eq_zero hlen.symm
      rw [hfe] at hfil
      cases hfil

/-- C10: whenever the current play is empty (the player leads the round) and
the hand is non-empty, `get_valid_plays` offers at least one combination, for
every `num_required` and every value of the opening-3♣ flag — the fallback
branch guarantees the leader always has a move. -/
theorem C10_leader_has_play (hand : List Card) (current : Option Play)
    (numRequired : Option Nat) (m3c : Bool)
    (hne : hand ≠ [])
    (hcur : match current with | none => True | some c => c.cards = []) :
    getValidPlays hand current numRequired m3c ≠ [] := by
  have hfallback : validPlaysFallback hand ≠ [] := by
    cases hand with
    | nil => exact absurd rfl hne
    | cons c0 rest =>
      obtain ⟨rc, hrc, hrcne⟩ := byRank_head_group c0 rest
      intro hnil
      unfold validPlaysFallback at hnil
      rw [List.flatMap_eq_nil_iff] at hnil
      have hinner := hnil rc hrc
      rw [List.flatMap_eq_nil_iff] at hinner
      cases hcs : rc.2 with
      | nil => exact hrcne hcs
      | cons d ds =>
        have h1 : (1 : Nat) ∈ List.range' 1 rc.2.length := by
          rw [List.mem_range']
          exact ⟨0, by simp [hcs], by simp⟩
        have hc1 := hinner 1 h1
        rw [hcs] at hc1
        exact combos_one_ne_nil d ds hc1
  cases current with
  | none =>
    simp only [getValidPlays]
    by_cases hres : validPlaysMain hand none numRequired m3c = []
    · simpa [List.isEmpty_iff, hne, hres] using hfallback
    · simp [List.isEmpty_iff, hne, hres]
  | some cp =>
    have hc : cp.cards = [] := hcur
    simp only [getValidPlays]
    by_cases hres : validPlaysMain hand (some cp) numRequired m3c = []
    · simpa [List.isEmpty_iff, hne, hres, hc] using hfallback
    · simp [List.isEmpty_iff, hne, hres, hc]

/-- C10 witness: a leader holding just the 3♣ is offered a play even under the
opening-3♣ constraint. -/
theorem C10_witness : getValidPlays [⟨'3','C'⟩] none none true ≠ [] :=
  C10_leader_has_play [⟨'3','C'⟩] none none true (by decide) trivial

/-- `setAccFirst` keeps the list length. -/
theorem setAccFirst_length (players : List Player) (pid : String) (a : Accolade) :
    (setAccFirst players pid a).length = players.length := by
  induction players with
  | nil => rfl
  | cons p ps ih =>
    unfold setAccFirst
    split <;> simp [ih]

/-- `setAccFirst` keeps every player's id. -/
theorem setAccFirst_map_id (players : List Player) (pid : String) (a : Accolade) :
    (setAccFirst players pid a).map Player.id = players.map Player.id := by
  induction players with
  | nil => rfl
  | cons p ps ih =>
    unfold setAccFirst
    split <;> simp [ih]

/-- On a list with unique ids, `setAccFirst` updates exactly the accolade of
the player with the sought id. -/
theorem setAccFirst_getD (players : List Player) (pid : String) (a : Accolade)
    (hnd : (players.map Player.id).Nodup) :
    ∀ j, j < players.length →
      (setAccFirst players pid a).getD j default =
        (if (players.getD j default).id = pid then
          { players.getD j default with accolade := a }
        else players.getD j default) := by
  induction players with
  | nil => intro j hj; cases hj
  | cons p ps ih =>
    intro j hj
    simp only [List.map_cons, List.nodup_cons] at hnd
    unfold setAccFirst
    by_cases hpid : p.id = pid
    · rw [if_pos hpid]
      cases j with
      | zero =>
        rw [List.getD_cons_zero, List.getD_cons_zero, if_pos hpid]
      | succ k =>
        have hk : k < ps.length := by simpa using hj
        have hgm : ps.getD k default ∈ ps := by
          rw [List.getD_eq_getElem _ _ hk]
          exact List.getElem_mem hk
        have hne : (ps.getD k default).id ≠ pid := by
          intro he
          apply hnd.1
          rw [hpid, ← he]
          exact List.mem_map_of_mem Player.id hgm
        rw [List.getD_cons_succ, List.getD_cons_succ, if_neg hne]
    · rw [if_neg hpid]
      cases j with
      | zero =>
        rw [List.getD_cons_zero, List.getD_cons_zero, if_neg hpid]
      | succ k =>
        have hk : k < ps.length := by simpa using hj
        rw [List.getD_cons_succ, List.getD_cons_succ]
        exact ih hnd.2 k hk

/-- `assignLoop` keeps the list length. -/
theorem assignLoop_length (n : Nat) (rs : List String) :
    ∀ (players : List Player) (i : Nat),
      (assignLoop n players i rs).length = players.length := by
  induction rs with
  | nil => intro players i; rfl
  | cons pid rest ih =>
    intro players i
    unfold assignLoop
    rw [ih, setAccFirst_length]

/-- `assignLoop` keeps every player's id. -/
theorem assignLoop_map_id (n : Nat) (rs : List String) :
    ∀ (players : List Player) (i : Nat),
      (assignLoop n players i rs).map Player.id = players.map Player.id := by
  induction rs with
  | nil => intro players i; rfl
  | cons pid rest ih =>
    intro players i
    unfold assignLoop
    rw [ih, setAccFirst_map_id]

/-- The enumerate loop of `assign_accolades`, characterised per player: with
unique player ids and unique result ids, player `j` ends with the accolade of
its finish position (offset by the running index `i0`), all other fields
unchanged. -/
theorem assignLoop_getD (n : Nat) (rs : List String) :
    ∀ (players : List Player) (i0 : Nat),
      (players.map Player.id).Nodup → rs.Nodup →
      ∀ j, j < players.length →
        (assignLoop n players i0 rs).getD j default =
          (if (players.getD j default).id ∈ rs then
            { players.getD j default with
              accolade := accFor (i0 + rs.indexOf (players.getD j default).id) n }
          else players.getD j default) := by
  induction rs with
  | nil =>
    intro players i0 _ _ j hj
    simp [assignLoop]
  | cons pid rest ih =>
    intro players i0 hndp hndr j hj
    simp only [List.nodup_cons] at hndr
    unfold assignLoop
    have hlen : j < (setAccFirst players pid (accFor i0 n)).length := by
      rwa [setAccFirst_length]
    have hnd2 : ((setAccFirst players pid (accFor i0 n)).map Player.id).Nodup := by
      rwa [setAccFirst_map_id]
    rw [ih (setAccFirst players pid (accFor i0 n)) (i0 + 1) hnd2 hndr.2 j hlen]
    rw [setAccFirst_getD players pid (accFor i0 n) hndp j hj]
    by_cases hpid : (players.getD j default).id = pid
    · rw [if_pos hpid]
      have hnotin : ({ players.getD j default with accolade := accFor i0 n } : Player).id ∉ rest := by
        show (players.getD j default).id ∉ rest
        rw [hpid]
        exact hndr.1
      rw [if_neg hnotin]
      have hmem : (players.getD j default).id ∈ pid :: rest := by
        rw [hpid]; exact List.mem_cons_self pid rest
      rw [if_pos hmem]
      have hidx : (pid :: rest).indexOf (players.getD j default).id = 0 := by
        rw [List.indexOf_cons]
        have hbeq : (pid == (players.getD j default).id) = true := by
          rw [hpid]
          exact beq_self_eq_true pid
        rw [hbeq]
        rfl
      rw [hidx, Nat.add_zero]
    · rw [if_neg hpid]
      have hidx : (pid :: rest).indexOf (players.getD j default).id
          = rest.indexOf (players.getD j default).id + 1 := by
        rw [List.indexOf_cons]
        have hbeq : (pid == (players.getD j default).id) = false :=
          beq_eq_false_iff_ne.mpr (Ne.symm hpid)
        rw [hbeq]
        rfl
      by_cases hmem : (players.getD j default).id ∈ rest
      · rw [if_pos hmem, if_pos (List.mem_cons_of_mem pid hmem), hidx]
        have harith : i0 + 1 + rest.indexOf (players.getD j default).id
            = i0 + (rest.indexOf (players.getD j default).id + 1) := by omega
        rw [harith]
      · rw [if_neg hmem, if_neg (show ¬(players.getD j default).id ∈ pid :: rest from by
          intro hc
          rcases List.mem_cons.mp hc with h | h
          · exact hpid h
          · exact hmem h)]

/-- `assign_accolades`, characterised as a per-player map: a player whose id
finished at position `i` gets the accolade of position `i` (`results[0]` →
El Presidente, `results[n-1]` → Shithead, `results[1]` → VP, other listed ids
→ Pleb, precedence in that order), and a player absent from `results` is a
Shithead. -/
theorem assignAccolades_players (g : Game)
    (hids : (g.players.map Player.id).Nodup) (hres : g.results.Nodup) :
    (assignAccolades g).players
      = g.players.map (fun p =>
          if p.id ∈ g.results then
            { p with accolade := accFor (g.results.indexOf p.id) g.players.length }
          else { p with accolade := .Shithead }) := by
  unfold assignAccolades
  apply List.ext_getElem
  · rw [List.length_map, List.length_map, assignLoop_length]
  · intro j h1 h2
    have hj : j < g.players.length := by simpa using h2
    have hjl : j < (assignLoop g.players.length g.players 0 g.results).length := by
      rwa [assignLoop_length]
    simp only [List.getElem_map]
    have hL : (assignLoop g.players.length g.players 0 g.results)[j]
        = (assignLoop g.players.length g.players 0 g.results).getD j default :=
      (List.getD_eq_getElem _ default hjl).symm
    have hR : g.players[j] = g.players.getD j default :=
      (List.getD_eq_getElem _ default hj).symm
    rw [hL, hR]
    rw [assignLoop_getD g.players.length g.results g.players 0 hids hres j hj]
    by_cases hmem : (g.players.getD j default).id ∈ g.results
    · rw [if_pos hmem, if_pos hmem]
      rw [if_pos (show ({ g.players.getD j default with
        accolade := accFor (0 + g.results.indexOf (g.players.getD j default).id)
          g.players.length } : Player).id ∈ g.results from hmem)]
      rw [Nat.zero_add]
    · rw [if_neg hmem, if_neg hmem]
      rw [if_neg (show ¬(g.players.getD j default).id ∈ g.results from hmem)]

/-- Counting a predicate that holds exactly at one point of `range n`. -/
theorem countP_range_single (p : Nat → Bool) (n k : Nat) (hk : k < n)
    (hp : ∀ i, p i = true ↔ i = k) :
    (List.range n).countP p = 1 := by
  induction n with
  | zero => cases hk
  | succ m ih =>
    rw [List.range_succ, List.countP_append]
    by_cases hkm : k = m
    · have h0 : (List.range m).countP p = 0 := by
        rw [List.countP_eq_zero]
        intro a ha
        rw [List.mem_range] at ha
        intro hpa
        rw [hp a] at hpa
        omega
      rw [h0]
      have : p m = true := (hp m).mpr hkm.symm
      simp [this]
    · have hkm' : k < m := by omega
      rw [ih hkm']
      have : p m = false := by
        rcases Bool.eq_false_or_eq_true (p m) with h | h
        · rw [hp m] at h; omega
        · exact h
      simp [this]

/-- On a duplicate-free list, mapping each element to its index enumerates
`range`. -/
theorem map_indexOf_self (l : List String) (hnd : l.Nodup) :
    l.map (fun y => l.indexOf y) = List.range l.length := by
  induction l with
  | nil => rfl
  | cons x xs ih =>
    simp only [List.nodup_cons] at hnd
    rw [List.map_cons]
    have h0 : (x :: xs).indexOf x = 0 := by
      rw [List.indexOf_cons]; simp
    rw [h0]
    have hstep : xs.map (fun y => (x :: xs).indexOf y) = (xs.map (fun y => xs.indexOf y)).map Nat.succ := by
      rw [List.map_map]
      refine List.map_congr_left (fun y hy => ?_)
      have hne : (x == y) = false := by
        have : x ≠ y := fun he => hnd.1 (he ▸ hy)
        simp [this]
      rw [List.indexOf_cons, hne]
      rfl
    rw [hstep, ih hnd.2, ← List.range_succ_eq_map]
    rfl

/-- When every player finished (results is a permutation of the player ids),
counting an accolade over the final players equals counting the matching
positions in `range n`. -/
theorem assignAccolades_count (g : Game) (a : Accolade)
    (hids : (g.players.map Player.id).Nodup) (hres : g.results.Nodup)
    (hperm : g.results.Perm (g.players.map Player.id)) :
    ((assignAccolades g).players.filter (fun p => p.accolade = a)).length
      = (List.range g.players.length).countP (fun i => accFor i g.players.length = a) := by
  rw [assignAccolades_players g hids hres]
  rw [← List.countP_eq_length_filter, List.countP_map]
  have hall : ∀ p ∈ g.players, p.id ∈ g.results := by
    intro p hp
    exact hperm.mem_iff.mpr (List.mem_map_of_mem Player.id hp)
  have hstep : g.players.countP ((fun p => decide (p.accolade = a)) ∘ (fun p =>
        if p.id ∈ g.results then
          { p with accolade := accFor (g.results.indexOf p.id) g.players.length }
        else { p with accolade := .Shithead }))
      = g.players.countP
          (fun p => decide (accFor (g.results.indexOf p.id) g.players.length = a)) := by
    refine List.countP_congr (fun p hp => ?_)
    simp [Function.comp, hall p hp]
  rw [hstep]
  have hmapped : (g.players.map (fun p => g.results.indexOf p.id)).countP
      (fun i => decide (accFor i g.players.length = a))
      = g.players.countP (fun p => decide (accFor (g.results.indexOf p.id) g.players.length = a)) := by
    rw [List.countP_map]
    rfl
  rw [← hmapped]
  have hmm : g.players.map (fun p => g.results.indexOf p.id)
      = (g.players.map Player.id).map (fun y => g.results.indexOf y) := by
    rw [List.map_map]
    rfl
  rw [hmm]
  have hperm2 : ((g.players.map Player.id).map (fun y => g.results.indexOf y)).Perm
      (g.results.map (fun y => g.results.indexOf y)) :=
    (hperm.map (fun y => g.results.indexOf y)).symm
  rw [hperm2.countP_eq]
  rw [map_indexOf_self g.results hres]
  have hlen : g.results.length = g.players.length := by
    have := hperm.length_eq
    simpa using this
  rw [hlen]

/-- C7: `assign_accolades` gives `results[0]` El Presidente, `results[n-1]`
Shithead, `results[1]` VP (in the source's precedence order), every other
listed id Pleb, and every unlisted player Shithead; and when every player
finished, there is exactly one El Presidente, exactly one Shithead when
`n ≥ 2`, and exactly one VP when `n ≥ 3`. -/
theorem C7_assign_accolades (g : Game)
    (hids : (g.players.map Player.id).Nodup) (hres : g.results.Nodup) :
    ((assignAccolades g).players
      = g.players.map (fun p =>
          if p.id ∈ g.results then
            { p with accolade := accFor (g.results.indexOf p.id) g.players.length }
          else { p with accolade := .Shithead }))
    ∧ (g.results.Perm (g.players.map Player.id) →
        (1 ≤ g.players.length →
          ((assignAccolades g).players.filter
            (fun p => p.accolade = Accolade.ElPresidente)).length = 1)
        ∧ (2 ≤ g.players.length →
          ((assignAccolades g).players.filter
            (fun p => p.accolade = Accolade.Shithead)).length = 1)
        ∧ (3 ≤ g.players.length →
          ((assignAccolades g).players.filter
            (fun p => p.accolade = Accolade.VP)).length = 1)) := by
  refine ⟨assignAccolades_players g hids hres, fun hperm => ⟨?_, ?_, ?_⟩⟩
  · intro hn
    rw [assignAccolades_count g Accolade.ElPresidente hids hres hperm]
    refine countP_range_single _ _ 0 (by omega) (fun i => ?_)
    unfold accFor
    constructor
    · intro h
      by_contra hne
      rw [if_neg hne] at h
      split at h
      · exact Accolade.noConfusion (of_decide_eq_true h)
      · split at h
        · exact Accolade.noConfusion (of_decide_eq_true h)
        · exact Accolade.noConfusion (of_decide_eq_true h)
    · intro h
      subst h
      simp
  · intro hn
    rw [assignAccolades_count g Accolade.Shithead hids hres hperm]
    refine countP_range_single _ _ (g.players.length - 1) (by omega) (fun i => ?_)
    unfold accFor
    constructor
    · intro h
      split at h
      · exact absurd (of_decide_eq_true h) (by intro hc; exact Accolade.noConfusion hc)
      · split at h
        · omega
        · split at h
          · exact absurd (of_decide_eq_true h) (by intro hc; exact Accolade.noConfusion hc)
          · exact absurd (of_decide_eq_true h) (by intro hc; exact Accolade.noConfusion hc)
    · intro h
      subst h
      rw [if_neg (by omega), if_pos rfl]
      simp
  · intro hn
    rw [assignAccolades_count g Accolade.VP hids hres hperm]
    refine countP_range_single _ _ 1 (by omega) (fun i => ?_)
    unfold accFor
    constructor
    · intro h
      split at h
      · exact absurd (of_decide_eq_true h) (by intro hc; exact Accolade.noConfusion hc)
      · split at h
        · exact absurd (of_decide_eq_true h) (by intro hc; exact Accolade.noConfusion hc)
        · split at h
          · omega
          · exact absurd (of_decide_eq_true h) (by intro hc; exact Accolade.noConfusion hc)
    · intro h
      subst h
      rw [if_neg (by omega), if_neg (by omega), if_pos rfl]
      simp

/-- C7 witness: in the finished three-player game `gC7` (finish order b, c, a)
the accolade counts are exactly one El Presidente, one Shithead and one VP. -/
theorem C7_witness :
    (gC7.players.map Player.id).Nodup ∧ gC7.results.Nodup ∧
    ((assignAccolades gC7).players.filter
      (fun p => p.accolade = Accolade.ElPresidente)).length = 1 ∧
    ((assignAccolades gC7).players.filter
      (fun p => p.accolade = Accolade.Shithead)).length = 1 ∧
    ((assignAccolades gC7).players.filter
      (fun p => p.accolade = Accolade.VP)).length = 1 :=
  ⟨by decide, by decide,
    ((C7_assign_accolades gC7 (by decide) (by decide)).2 (by decide)).1 (by decide),
    ((C7_assign_accolades gC7 (by decide) (by decide)).2 (by decide)).2.1 (by decide),
    ((C7_assign_accolades gC7 (by decide) (by decide)).2 (by decide)).2.2 (by decide)⟩

/-- `is3C` holds exactly for the 3♣ card. -/
theorem is3C_iff (c : Card) : is3C c = true ↔ c = ⟨'3', 'C'⟩ := by
  cases c with
  | mk r s => simp [is3C, Card.mk.injEq]

/-- The 2-player loop deals `dealtCount` cards, splitting them alternately:
the player on turn parity gets the ceiling half. -/
theorem deal2go_length : ∀ (d : List Card) (ci pi : Nat),
    (deal2go d ci pi).1.length + (deal2go d ci pi).2.length = dealtCount d ci
    ∧ (deal2go d ci pi).1.length
        = (if pi % 2 = 0 then (dealtCount d ci + 1) / 2 else dealtCount d ci / 2) := by
  intro d
  induction d with
  | nil =>
    intro ci pi
    constructor
    · rfl
    · simp [deal2go, dealtCount]
  | cons c rest ih =>
    intro ci pi
    unfold deal2go dealtCount
    by_cases hskip : ci % 3 = 2
    · by_cases h3 : is3C c
      · rw [if_pos (by simp [hskip, h3])]
        obtain ⟨ihsum, ihfst⟩ := ih (ci + 1) (pi + 1)
        by_cases hpi : pi % 2 = 0
        · rw [if_pos hpi]
          have hpi1 : ¬(pi + 1) % 2 = 0 := by omega
          rw [if_neg hpi1] at ihfst
          simp only [List.length_cons]
          rw [if_pos hskip, if_pos h3, if_pos hpi]
          omega
        · rw [if_neg hpi]
          have hpi1 : (pi + 1) % 2 = 0 := by omega
          rw [if_pos hpi1] at ihfst
          simp only [List.length_cons]
          rw [if_pos hskip, if_pos h3, if_neg hpi]
          omega
      · rw [if_neg (by simp [hskip, h3])]
        obtain ⟨ihsum, ihfst⟩ := ih (ci + 1) pi
        rw [if_pos hskip, if_neg h3]
        constructor
        · omega
        · simpa using ihfst
    · rw [if_pos (by simp [hskip])]
      obtain ⟨ihsum, ihfst⟩ := ih (ci + 1) (pi + 1)
      rw [if_neg hskip]
      by_cases hpi : pi % 2 = 0
      · rw [if_pos hpi]
        have hpi1 : ¬(pi + 1) % 2 = 0 := by omega
        rw [if_neg hpi1] at ihfst
        simp only [List.length_cons]
        rw [if_pos hpi]
        omega
      · rw [if_neg hpi]
        have hpi1 : (pi + 1) % 2 = 0 := by omega
        rw [if_pos hpi1] at ihfst
        simp only [List.length_cons]
        rw [if_neg hpi]
        omega

/-- The 3♣ is always dealt to one of the two players, never withheld. -/
theorem deal2go_mem3C : ∀ (d : List Card) (ci pi : Nat),
    (⟨'3', 'C'⟩ : Card) ∈ d →
    (⟨'3', 'C'⟩ : Card) ∈ (deal2go d ci pi).1 ∨ (⟨'3', 'C'⟩ : Card) ∈ (deal2go d ci pi).2 := by
  intro d
  induction d with
  | nil => intro ci pi h; cases h
  | cons c rest ih =>
    intro ci pi hmem
    simp only [deal2go]
    rcases List.mem_cons.mp hmem with rfl | hmem'
    · have h3 : is3C (⟨'3', 'C'⟩ : Card) = true := by decide
      rw [if_pos (by by_cases hskip : ci % 3 = 2 <;> simp [hskip, h3])]
      by_cases hpi : pi % 2 = 0
      · rw [if_pos hpi]
        exact Or.inl (List.mem_cons_self _ _)
      · rw [if_neg hpi]
        exact Or.inr (List.mem_cons_self _ _)
    · by_cases hcond : (decide (ci % 3 = 2) && is3C c || !decide (ci % 3 = 2)) = true
      · rw [if_pos hcond]
        rcases ih (ci + 1) (pi + 1) hmem' with h | h
        · by_cases hpi : pi % 2 = 0
          · rw [if_pos hpi]
            exact Or.inl (List.mem_cons_of_mem c h)
          · rw [if_neg hpi]
            exact Or.inl h
        · by_cases hpi : pi % 2 = 0
          · rw [if_pos hpi]
            exact Or.inr h
          · rw [if_neg hpi]
            exact Or.inr (List.mem_cons_of_mem c h)
      · rw [if_neg hcond]
        exact ih (ci + 1) pi hmem'

/-- `dealtCount` over an append. -/
theorem dealtCount_append : ∀ (d1 d2 : List Card) (ci : Nat),
    dealtCount (d1 ++ d2) ci = dealtCount d1 ci + dealtCount d2 (ci + d1.length) := by
  intro d1
  induction d1 with
  | nil => intro d2 ci; simp [dealtCount]
  | cons c rest ih =>
    intro d2 ci
    have hstep : dealtCount ((c :: rest) ++ d2) ci
        = (if ci % 3 = 2 then (if is3C c then 1 else 0) else 1)
          + dealtCount (rest ++ d2) (ci + 1) := rfl
    have hstep2 : dealtCount (c :: rest) ci
        = (if ci % 3 = 2 then (if is3C c then 1 else 0) else 1)
          + dealtCount rest (ci + 1) := rfl
    rw [hstep, hstep2, ih d2 (ci + 1)]
    have harg : ci + 1 + rest.length = ci + (c :: rest).length := by
      simp only [List.length_cons]
      omega
    rw [harg]
    omega

/-- Without a 3♣ in the segment, exactly the skip slots are withheld. -/
theorem dealtCount_no3C : ∀ (d : List Card) (ci : Nat),
    (∀ c ∈ d, ¬is3C c = true) →
    dealtCount d ci + skipSlots d.length ci = d.length := by
  intro d
  induction d with
  | nil => intro ci _; rfl
  | cons c rest ih =>
    intro ci hno
    unfold dealtCount
    simp only [List.length_cons]
    unfold skipSlots
    have h3 : ¬is3C c = true := hno c (List.mem_cons_self c rest)
    have hrest := ih (ci + 1) (fun x hx => hno x (List.mem_cons_of_mem c hx))
    by_cases hskip : ci % 3 = 2
    · rw [if_pos hskip, if_pos hskip, if_neg h3]
      omega
    · rw [if_neg hskip, if_neg hskip]
      omega

/-- Closed form for the number of skip slots: indices congruent to 2 mod 3 in
`[ci, ci + m)`. -/
theorem skipSlots_closed : ∀ (m ci : Nat),
    skipSlots m ci = (ci + m) / 3 - ci / 3 := by
  intro m
  induction m with
  | zero => intro ci; simp [skipSlots]
  | succ k ih =>
    intro ci
    unfold skipSlots
    rw [ih (ci + 1)]
    have e1 : ci + 1 + k = ci + (k + 1) := by omega
    rw [e1]
    by_cases hskip : ci % 3 = 2
    · rw [if_pos hskip]
      omega
    · rw [if_neg hskip]
      omega

/-- The first-occurrence index of an element given an explicit split. -/
theorem indexOf_of_split (s t : List Card) (a : Card) (hns : a ∉ s) :
    (s ++ a :: t).indexOf a = s.length := by
  induction s with
  | nil =>
    simp only [List.nil_append, List.length_nil]
    rw [List.indexOf_cons]
    have : (a == a) = true := beq_self_eq_true a
    rw [this]
    rfl
  | cons x xs ih =>
    have hxa : x ≠ a := fun he => hns (he ▸ List.mem_cons_self x xs)
    simp only [List.cons_append, List.length_cons]
    rw [List.indexOf_cons]
    have : (x == a) = false := beq_eq_false_iff_ne.mpr hxa
    rw [this]
    have hns' : a ∉ xs := fun h => hns (List.mem_cons_of_mem x h)
    simp [ih hns']

/-- Dealt-card count of any ordering of the full deck: 35 cards, plus one more
when the 3♣ sits on a skip slot (where it is dealt anyway). -/
theorem dealtCount_perm_deck (deck : List Card) (hperm : List.Perm deck standardDeck) :
    dealtCount deck 0
      = 35 + (if deck.indexOf (⟨'3', 'C'⟩ : Card) % 3 = 2 then 1 else 0) := by
  have hmem : (⟨'3', 'C'⟩ : Card) ∈ deck :=
    hperm.mem_iff.mpr (by decide)
  obtain ⟨s, t, hst⟩ := List.append_of_mem hmem
  have hcount : deck.count (⟨'3', 'C'⟩ : Card) = 1 := by
    rw [hperm.count_eq]
    decide
  have hlen : deck.length = 52 := by
    rw [hperm.length_eq]
    decide
  subst hst
  have hsplit : s.count (⟨'3', 'C'⟩ : Card) = 0 ∧ t.count (⟨'3', 'C'⟩ : Card) = 0 := by
    rw [List.count_append, List.count_cons] at hcount
    simp only [beq_self_eq_true, if_true] at hcount
    constructor <;> omega
  have hnots : (⟨'3', 'C'⟩ : Card) ∉ s := by
    intro h
    have := List.count_pos_iff.mpr h
    omega
  have hnott : (⟨'3', 'C'⟩ : Card) ∉ t := by
    intro h
    have := List.count_pos_iff.mpr h
    omega
  have hno3s : ∀ c ∈ s, ¬is3C c = true := by
    intro c hc h3
    exact hnots ((is3C_iff c).mp h3 ▸ hc)
  have hno3t : ∀ c ∈ t, ¬is3C c = true := by
    intro c hc h3
    exact hnott ((is3C_iff c).mp h3 ▸ hc)
  rw [indexOf_of_split s t _ hnots]
  rw [dealtCount_append]
  have hs := dealtCount_no3C s 0 hno3s
  have ht := dealtCount_no3C t (s.length + 1) hno3t
  have hhead : dealtCount ((⟨'3', 'C'⟩ : Card) :: t) (0 + s.length)
      = (if (0 + s.length) % 3 = 2 then (if is3C (⟨'3', 'C'⟩ : Card) then 1 else 0) else 1)
        + dealtCount t (0 + s.length + 1) := rfl
  have hone : (if (0 + s.length) % 3 = 2
      then (if is3C (⟨'3', 'C'⟩ : Card) then 1 else 0) else 1) = 1 := by
    by_cases hsk : (0 + s.length) % 3 = 2
    · rw [if_pos hsk]
      rfl
    · rw [if_neg hsk]
  rw [hhead, hone]
  simp only [Nat.zero_add]
  have hlens : s.length + 1 + t.length = 52 := by
    rw [List.length_append, List.length_cons] at hlen
    omega
  rw [skipSlots_closed] at hs ht
  have e52 : s.length + 1 + t.length = 52 := hlens
  rw [e52] at ht
  by_cases hq : s.length % 3 = 2
  · rw [if_pos hq]
    omega
  · rw [if_neg hq]
    omega

/-- C6 (amended): for every ordering of the 52-card deck, the 2-player deal
follows the (p0, p1, skip) pattern and the 3♣ is always held by one of the two
players; when the 3♣ does not fall on a withheld slot, 17 cards are withheld
and the hands have 18 and 17 cards; when it does, the 3♣ is dealt to the
current player instead, so only 16 cards are withheld and both hands have 18
cards. -/
theorem C6_two_player_deal (deck : List Card) (hperm : List.Perm deck standardDeck) :
    ((⟨'3', 'C'⟩ : Card) ∈ (deal2go deck 0 0).1 ∨ (⟨'3', 'C'⟩ : Card) ∈ (deal2go deck 0 0).2)
    ∧ (deck.indexOf (⟨'3', 'C'⟩ : Card) % 3 ≠ 2 →
        (deal2go deck 0 0).1.length = 18 ∧ (deal2go deck 0 0).2.length = 17
        ∧ 52 - ((deal2go deck 0 0).1.length + (deal2go deck 0 0).2.length) = 17)
    ∧ (deck.indexOf (⟨'3', 'C'⟩ : Card) % 3 = 2 →
        (deal2go deck 0 0).1.length = 18 ∧ (deal2go deck 0 0).2.length = 18
        ∧ 52 - ((deal2go deck 0 0).1.length + (deal2go deck 0 0).2.length) = 16) := by
  have hmem : (⟨'3', 'C'⟩ : Card) ∈ deck := hperm.mem_iff.mpr (by decide)
  have hdc := dealtCount_perm_deck deck hperm
  obtain ⟨hsum, hfst⟩ := deal2go_length deck 0 0
  rw [if_pos (by omega : (0 : Nat) % 2 = 0)] at hfst
  refine ⟨deal2go_mem3C deck 0 0 hmem, fun hq => ?_, fun hq => ?_⟩
  · rw [if_neg hq] at hdc
    omega
  · rw [if_pos hq] at hdc
    omega

/-- C6 counterexample: the deck ordering `deckC6` (3♣ at index 2, a withheld
slot) is a permutation of the full deck for which the two dealt hands have 18
and 18 cards — not 17 and 18 in some order as the claim states. -/
theorem C6_counterexample :
    List.Perm deckC6 standardDeck ∧
    (deal2go deckC6 0 0).1.length = 18 ∧ (deal2go deckC6 0 0).2.length = 18 := by
  refine ⟨by decide, by decide, by decide⟩

/-- C6 witness: on the reset deck order (3♣ at index 0, not a withheld slot)
the hands are 18 and 17 with 17 cards withheld. -/
theorem C6_witness :
    (deal2go standardDeck 0 0).1.length = 18 ∧ (deal2go standardDeck 0 0).2.length = 17
    ∧ 52 - ((deal2go standardDeck 0 0).1.length + (deal2go standardDeck 0 0).2.length) = 17 :=
  (C6_two_player_deal standardDeck (List.Perm.refl _)).2.1 (by decide)

/-- The circular walk stays inside the index range. -/
theorem walkFrom_lt (players : List Player) (passed : Finset Nat) (stop : Nat) :
    ∀ (fuel cur : Nat), 0 < players.length → cur < players.length →
      walkFrom players passed stop cur fuel < players.length := by
  intro fuel
  induction fuel with
  | zero => intro cur _ hcur; exact hcur
  | succ f ih =>
    intro cur hn hcur
    unfold walkFrom
    split
    · exact hcur
    split
    · exact hcur
    · exact ih ((cur + 1) % players.length) hn (Nat.mod_lt _ hn)

/-- A zero walk distance means the walk is at its stop. -/
theorem walkDist_eq_zero (n stop cur : Nat) (hstop : stop < n) (hcur : cur < n) :
    walkDist n stop cur = 0 ↔ cur = stop := by
  unfold walkDist
  split <;> omega

/-- The walk distance is below `n`. -/
theorem walkDist_lt (n stop cur : Nat) (hstop : stop < n) (hcur : cur < n) :
    walkDist n stop cur < n := by
  unfold walkDist
  split <;> omega

/-- One circular step decreases the walk distance by one. -/
theorem walkDist_step (n stop cur : Nat) (hstop : stop < n) (hcur : cur < n)
    (hne : cur ≠ stop) :
    walkDist n stop ((cur + 1) % n) = walkDist n stop cur - 1 := by
  by_cases hc : cur + 1 = n
  · rw [hc, Nat.mod_self]
    unfold walkDist
    split <;> split <;> omega
  · rw [Nat.mod_eq_of_lt (by omega)]
    unfold walkDist
    split <;> split <;> omega

/-- The walk distance determines the position. -/
theorem walkDist_inj (n stop j cur : Nat) (hstop : stop < n) (hj : j < n) (hcur : cur < n)
    (h : walkDist n stop j = walkDist n stop cur) : j = cur := by
  unfold walkDist at h
  split at h <;> split at h <;> omega

/-- Starting one past the stop, the walk distance is maximal. -/
theorem walkDist_start (n stop : Nat) (hn : 0 < n) (hstop : stop < n) :
    walkDist n stop ((stop + 1) % n) = n - 1 := by
  by_cases hc : stop + 1 = n
  · rw [hc, Nat.mod_self]
    unfold walkDist
    split <;> omega
  · rw [Nat.mod_eq_of_lt (by omega)]
    unfold walkDist
    split <;> omega

/-- Soundness and completeness of the circular walk: with enough fuel it either
reaches `stop` — having visited (and rejected) every position within the start
distance — or it stops on an acceptable position. -/
theorem walkFrom_spec (players : List Player) (passed : Finset Nat) (stop : Nat) :
    ∀ (fuel cur : Nat), stop < players.length → cur < players.length →
      walkDist players.length stop cur ≤ fuel →
      (walkFrom players passed stop cur fuel = stop
        ∧ ∀ j, j < players.length → j ≠ stop →
            walkDist players.length stop j ≤ walkDist players.length stop cur →
            ¬(j ∉ passed ∧ ¬(handAt players j).isEmpty))
      ∨ (walkFrom players passed stop cur fuel ≠ stop
        ∧ walkFrom players passed stop cur fuel ∉ passed
        ∧ ¬(handAt players (walkFrom players passed stop cur fuel)).isEmpty) := by
  intro fuel
  induction fuel with
  | zero =>
    intro cur hstop hcur hfuel
    have hz : walkDist players.length stop cur = 0 := by omega
    have hcs : cur = stop := (walkDist_eq_zero _ _ _ hstop hcur).mp hz
    left
    refine ⟨hcs, fun j hj hjs hd => ?_⟩
    have hdj : walkDist players.length stop j = 0 := by omega
    exact absurd ((walkDist_eq_zero _ _ _ hstop hj).mp hdj) hjs
  | succ f ih =>
    intro cur hstop hcur hfuel
    unfold walkFrom
    by_cases hcs : cur = stop
    · rw [if_pos hcs]
      left
      refine ⟨hcs, fun j hj hjs hd => ?_⟩
      have hz : walkDist players.length stop cur = 0 :=
        (walkDist_eq_zero _ _ _ hstop hcur).mpr hcs
      have hdj : walkDist players.length stop j = 0 := by omega
      exact absurd ((walkDist_eq_zero _ _ _ hstop hj).mp hdj) hjs
    · rw [if_neg hcs]
      by_cases hpred : cur ∉ passed ∧ ¬(handAt players cur).isEmpty
      · rw [if_pos hpred]
        exact Or.inr ⟨hcs, hpred.1, hpred.2⟩
      · rw [if_neg hpred]
        have hn : 0 < players.length := by omega
        have hnext : (cur + 1) % players.length < players.length := Nat.mod_lt _ hn
        have hdnext : walkDist players.length stop ((cur + 1) % players.length)
            = walkDist players.length stop cur - 1 :=
          walkDist_step _ _ _ hstop hcur hcs
        have hdpos : 1 ≤ walkDist players.length stop cur := by
          rcases Nat.eq_zero_or_pos (walkDist players.length stop cur) with h | h
          · exact absurd ((walkDist_eq_zero _ _ _ hstop hcur).mp h) hcs
          · exact h
        have hfuel' : walkDist players.length stop ((cur + 1) % players.length) ≤ f := by
          omega
        rcases ih ((cur + 1) % players.length) hstop hnext hfuel' with ⟨heq, hall⟩ | hok
        · left
          refine ⟨heq, fun j hj hjs hd => ?_⟩
          by_cases hdj : walkDist players.length stop j
              ≤ walkDist players.length stop ((cur + 1) % players.length)
          · exact hall j hj hjs hdj
          · have : walkDist players.length stop j = walkDist players.length stop cur := by
              omega
            have hjc : j = cur := walkDist_inj _ _ _ _ hstop hj hcur this
            rw [hjc]
            exact hpred
        · exact Or.inr hok

/-- `startNewRound` keeps the full invariant: the new leader is in range, and
has cards whenever the game is not over. -/
theorem startNewRound_inv (g : Game) (w : Nat)
    (hn : 0 < g.players.length) (hw : w < g.players.length) :
    Inv (startNewRound g w) := by
  have hplayers : (startNewRound g w).players = g.players := rfl
  have hlp : (startNewRound g w).round.last_play_player_idx = -1 := by
    unfold startNewRound
    rfl
  constructor
  · -- WF
    refine ⟨by rw [hplayers]; exact hn, ?_, ?_⟩
    · show (startNewRound g w).current_player_idx < (startNewRound g w).players.length
      rw [hplayers]
      simp only [startNewRound]
      by_cases hwe : (handAt g.players w).isEmpty
      · rw [if_pos hwe]
        by_cases hs : walkFrom g.players ∅ w ((w + 1) % g.players.length) g.players.length
            = w
        · rw [if_pos hs]
          exact Nat.mod_lt _ hn
        · rw [if_neg hs]
          exact walkFrom_lt g.players ∅ w _ _ hn (Nat.mod_lt _ hn)
      · rw [if_neg hwe]
        exact hw
    · rw [hlp]
      intro h
      exact absurd h (by omega)
  · -- TurnInv
    intro hphase hcnt
    have hcnt' : 2 ≤ cntWithCards g := hcnt
    have hex : ∃ j, j < g.players.length ∧ ¬(handAt g.players j).isEmpty := by
      have hlen : 1 ≤ ((List.range g.players.length).filter
          (fun i => !(handAt g.players i).isEmpty)).length := by
        have := hcnt'
        unfold cntWithCards at this
        omega
      have hnil : (List.range g.players.length).filter
          (fun i => !(handAt g.players i).isEmpty) ≠ [] := by
        intro h
        rw [h] at hlen
        simp at hlen
      obtain ⟨j, hj⟩ := List.exists_mem_of_ne_nil _ hnil
      have hj1 := (List.mem_filter.mp hj).1
      have hj2 := (List.mem_filter.mp hj).2
      exact ⟨j, List.mem_range.mp hj1, by simpa using hj2⟩
    show ¬(handAt (startNewRound g w).players (startNewRound g w).current_player_idx).isEmpty
    rw [hplayers]
    simp only [startNewRound]
    by_cases hwe : (handAt g.players w).isEmpty
    · rw [if_pos hwe]
      obtain ⟨j, hjlt, hjne⟩ := hex
      have hjw : j ≠ w := by
        intro h
        rw [h] at hjne
        exact hjne hwe
      have hspec := walkFrom_spec g.players ∅ w g.players.length
        ((w + 1) % g.players.length) hw (Nat.mod_lt _ hn)
        (by
          have := walkDist_lt g.players.length w ((w + 1) % g.players.length) hw
            (Nat.mod_lt _ hn)
          omega)
      rcases hspec with ⟨heq, hall⟩ | ⟨hne, -, hok⟩
      · exfalso
        have hdmax : walkDist g.players.length w ((w + 1) % g.players.length)
            = g.players.length - 1 := walkDist_start _ _ hn hw
        have hdj : walkDist g.players.length w j ≤ g.players.length - 1 := by
          have := walkDist_lt g.players.length w j hw hjlt
          omega
        have := hall j hjlt hjw (by omega)
        exact this ⟨Finset.not_mem_empty j, hjne⟩
      · rw [if_neg hne]
        exact hok
    · rw [if_neg hwe]
      exact hwe

/-- `apply_pass` keeps the full invariant (both the error and success paths). -/
theorem applyPass_inv (g : Game) (i : Nat) (hInv : Inv g) : Inv (applyPass g i).2 := by
  obtain ⟨⟨hn, hcur, hlp⟩, hturn⟩ := hInv
  unfold applyPass
  by_cases h1 : g.phase ≠ GamePhase.Playing
  · rw [if_pos h1]
    exact ⟨⟨hn, hcur, hlp⟩, hturn⟩
  rw [if_neg h1]
  by_cases h2 : g.current_player_idx ≠ i
  · rw [if_pos h2]
    exact ⟨⟨hn, hcur, hlp⟩, hturn⟩
  rw [if_neg h2]
  have hi : i < g.players.length := not_not.mp h2 ▸ hcur
  show Inv (applyPassBody g i)
  simp only [applyPassBody]
  have hwin : (if 0 ≤ g.round.last_play_player_idx
      then g.round.last_play_player_idx.toNat else i) < g.players.length := by
    split
    · next h => have := hlp h; omega
    · exact hi
  split
  · exact startNewRound_inv _ _ hn hwin
  · split
    · exact startNewRound_inv _ _ hn hwin
    · split
      · exact startNewRound_inv _ _ hn hwin
      · next hinp hne hnemp =>
        refine ⟨⟨hn, ?_, hlp⟩, fun _ _ => ?_⟩
        · exact walkFrom_lt _ _ _ _ _ hn (Nat.mod_lt _ hn)
        · exact hnemp

/-- `removePlayed` has exactly one error message. -/
theorem removePlayed_error : ∀ (cs hand : List Card),
    (removePlayed cs hand).1 ≠ none → (removePlayed cs hand).1 = some "Card not in hand" := by
  intro cs
  induction cs with
  | nil => intro hand h; exact absurd rfl h
  | cons c rest ih =>
    intro hand h
    unfold removePlayed at h ⊢
    by_cases hc : hand.contains c
    · rw [if_pos hc] at h ⊢
      exact ih (hand.erase c) h
    · rw [if_neg hc]

/-- The shared turn-advance block keeps the full invariant. -/
theorem advanceOr_inv (g : Game) (pi w : Nat) (hn : 0 < g.players.length)
    (hw : w < g.players.length)
    (hlp : 0 ≤ g.round.last_play_player_idx →
      g.round.last_play_player_idx < (g.players.length : Int)) :
    Inv (advanceOr g pi w) := by
  simp only [advanceOr]
  split
  · exact startNewRound_inv g w hn hw
  split
  · exact startNewRound_inv g w hn hw
  · rename_i hne hnemp
    refine ⟨⟨hn, ?_, hlp⟩, fun _ _ => ?_⟩
    · exact walkFrom_lt _ _ _ _ _ hn (Nat.mod_lt _ hn)
    · exact hnemp

/-- `applyPlaySuccess` (the post-removal tail of `apply_play`) keeps the
invariant, whatever the new hand is. -/
theorem applyPlaySuccess_inv (g : Game) (i : Nat) (p : Play) (hand' : List Card)
    (hInv : Inv g) (hi : i < g.players.length) : Inv (applyPlaySuccess g i p hand') := by
  obtain ⟨⟨hn, hcur, hlp⟩, hturn⟩ := hInv
  have hmidlen : (playMid g i p hand').players.length = g.players.length := by
    show ((setHand g i hand').players).length = g.players.length
    simp [setHand]
  have hmidlp : (playMid g i p hand').round.last_play_player_idx = (i : Int) := rfl
  simp only [applyPlaySuccess]
  have hwin : (if 0 ≤ (playMid g i p hand').round.last_play_player_idx
      then (playMid g i p hand').round.last_play_player_idx.toNat else i) = i := by
    rw [hmidlp]
    simp
  rw [hwin]
  split
  · split
    · refine startNewRound_inv _ i ?_ ?_
      · show 0 < (playMid g i p hand').players.length
        rw [hmidlen]
        exact hn
      · show i < (playMid g i p hand').players.length
        rw [hmidlen]
        exact hi
    · refine advanceOr_inv _ i i ?_ ?_ ?_
      · show 0 < (playMid g i p hand').players.length
        rw [hmidlen]
        exact hn
      · show i < (playMid g i p hand').players.length
        rw [hmidlen]
        exact hi
      · show 0 ≤ (playMid g i p hand').round.last_play_player_idx →
          (playMid g i p hand').round.last_play_player_idx
            < ((playMid g i p hand').players.length : Int)
        rw [hmidlp, hmidlen]
        intro _
        omega
  · refine advanceOr_inv _ i i ?_ ?_ ?_
    · show 0 < (playMid g i p hand').players.length
      rw [hmidlen]
      exact hn
    · show i < (playMid g i p hand').players.length
      rw [hmidlen]
      exact hi
    · show 0 ≤ (playMid g i p hand').round.last_play_player_idx →
        (playMid g i p hand').round.last_play_player_idx
          < ((playMid g i p hand').players.length : Int)
      rw [hmidlp, hmidlen]
      intro _
      omega

/-- `apply_play` keeps the full invariant except through the partial-removal
"Card not in hand" error (see C2). -/
theorem applyPlay_inv (g : Game) (i : Nat) (p : Play) (hInv : Inv g)
    (herr : (applyPlay g i p).1 ≠ some "Card not in hand") : Inv (applyPlay g i p).2 := by
  unfold applyPlay at herr ⊢
  by_cases h1 : g.phase ≠ GamePhase.Playing
  · rw [if_pos h1]
    exact hInv
  rw [if_neg h1] at herr ⊢
  by_cases h2 : g.current_player_idx ≠ i
  · rw [if_pos h2]
    exact hInv
  rw [if_neg h2] at herr ⊢
  have hi : i < g.players.length := not_not.mp h2 ▸ hInv.1.2.1
  simp only [applyPlayChecked] at herr ⊢
  split
  · exact hInv
  split
  · exact hInv
  · rename_i hv h3
    rw [if_neg hv, if_neg h3] at herr
    cases hrp : removePlayed p.cards (g.players.getD i default).hand with
    | mk e hand' =>
      rw [hrp] at herr
      cases e with
      | some s =>
        exfalso
        apply herr
        have h := removePlayed_error p.cards (g.players.getD i default).hand
          (by rw [hrp]; intro hc; cases hc)
        rw [hrp] at h
        exact h
      | none =>
        exact applyPlaySuccess_inv g i p hand' hInv hi

/-- C4 (amended): the turn invariant — in the Playing phase of a game that is
not over, the acting player's hand is non-empty (with indices in range) — is
preserved by `apply_pass`, by the end-of-round procedure, and by `apply_play`
whenever `apply_play` does not take the partial-removal "Card not in hand"
error path; it is NOT preserved by `remove_player_from_game`
(see the counterexample). -/
theorem C4_preservation :
    (∀ (g : Game) (i : Nat) (p : Play), Inv g →
      (applyPlay g i p).1 ≠ some "Card not in hand" → Inv (applyPlay g i p).2)
    ∧ (∀ (g : Game) (i : Nat), Inv g → Inv (applyPass g i).2)
    ∧ (∀ (g : Game) (w : Nat), 0 < g.players.length → w < g.players.length →
      Inv (startNewRound g w)) :=
  ⟨fun g i p hInv herr => applyPlay_inv g i p hInv herr,
   fun g i hInv => applyPass_inv g i hInv,
   fun g w hn hw => startNewRound_inv g w hn hw⟩

/-- C4 witness: the invariant holds of `gC4` and is kept by a pass of the
acting player 3. -/
theorem C4_witness : Inv gC4 ∧ Inv (applyPass gC4 3).2 :=
  ⟨by decide, C4_preservation.2.1 gC4 3 (by decide)⟩

/-- Updating one list position exchanges its `f`-weight in the mapped sum. -/
theorem sum_map_set {α : Type} [Inhabited α] (f : α → Nat) :
    ∀ (l : List α) (i : Nat) (x : α), i < l.length →
      ((l.set i x).map f).sum + f (l.getD i default) = (l.map f).sum + f x := by
  intro l
  induction l with
  | nil => intro i x hi; cases hi
  | cons y ys ih =>
    intro i x hi
    cases i with
    | zero =>
      simp only [List.set_cons_zero, List.map_cons, List.sum_cons, List.getD_cons_zero]
      omega
    | succ k =>
      have hk : k < ys.length := by simpa using hi
      simp only [List.set_cons_succ, List.map_cons, List.sum_cons, List.getD_cons_succ]
      have := ih k x hk
      omega

/-- `setHand` exchanges the replaced hand's size in the conservation ledger. -/
theorem setHand_total (g : Game) (i : Nat) (h : List Card) (hi : i < g.players.length) :
    totalCards (setHand g i h) + (handAt g.players i).length
      = totalCards g + h.length := by
  unfold totalCards pileCards setHand handAt
  dsimp only
  have hsum := sum_map_set (fun p => p.hand.length) g.players i
    { g.players.getD i default with hand := h } hi
  simp only at hsum
  omega

/-- The end-of-round procedure removes exactly the pile from the ledger. -/
theorem startNewRound_total (g : Game) (w : Nat) :
    totalCards (startNewRound g w) + pileCards g = totalCards g
    ∧ (startNewRound g w).round.pile.plays = [] := by
  have h1 : (startNewRound g w).players = g.players := rfl
  have h2 : (startNewRound g w).round.pile.plays = [] := rfl
  have h3 : (startNewRound g w).trade_high_card = g.trade_high_card := rfl
  have h4 : (startNewRound g w).trade_low_card = g.trade_low_card := rfl
  refine ⟨?_, h2⟩
  unfold totalCards pileCards
  rw [h1, h2, h3, h4]
  simp only [List.map_nil, List.sum_nil]
  omega

/-- `apply_pass` either leaves the ledger untouched (turn advance, and every
error) or, at round end, removes exactly the old pile from it. -/
theorem applyPass_total (g : Game) (i : Nat) :
    ((applyPass g i).2.round.pile.plays = [] →
      totalCards (applyPass g i).2 + pileCards g = totalCards g)
    ∧ ((applyPass g i).2.round.pile.plays ≠ [] →
      totalCards (applyPass g i).2 = totalCards g) := by
  have hself : ∀ (r : Game), r = g →
      (r.round.pile.plays = [] → totalCards r + pileCards g = totalCards g)
      ∧ (r.round.pile.plays ≠ [] → totalCards r = totalCards g) := by
    intro r hg
    subst hg
    constructor
    · intro hnil
      have : pileCards r = 0 := by
        unfold pileCards
        rw [hnil]
        rfl
      omega
    · intro _
      rfl
  unfold applyPass
  by_cases h1 : g.phase ≠ GamePhase.Playing
  · rw [if_pos h1]
    exact hself g rfl
  rw [if_neg h1]
  by_cases h2 : g.current_player_idx ≠ i
  · rw [if_pos h2]
    exact hself g rfl
  rw [if_neg h2]
  show ((applyPassBody g i).round.pile.plays = [] → _) ∧ _
  have hgx : totalCards { g with passed_this_round := insert i g.passed_this_round }
      = totalCards g := rfl
  have hpx : pileCards { g with passed_this_round := insert i g.passed_this_round }
      = pileCards g := rfl
  simp only [applyPassBody]
  split
  · obtain ⟨ht, hp⟩ := startNewRound_total
      { g with passed_this_round := insert i g.passed_this_round }
      (if 0 ≤ g.round.last_play_player_idx then g.round.last_play_player_idx.toNat else i)
    rw [hgx, hpx] at ht
    exact ⟨fun _ => ht, fun hne => absurd hp hne⟩
  · split
    · obtain ⟨ht, hp⟩ := startNewRound_total
        { g with passed_this_round := insert i g.passed_this_round }
        (if 0 ≤ g.round.last_play_player_idx then g.round.last_play_player_idx.toNat else i)
      rw [hgx, hpx] at ht
      exact ⟨fun _ => ht, fun hne => absurd hp hne⟩
    · split
      · obtain ⟨ht, hp⟩ := startNewRound_total
          { g with passed_this_round := insert i g.passed_this_round }
          (if 0 ≤ g.round.last_play_player_idx then g.round.last_play_player_idx.toNat else i)
        rw [hgx, hpx] at ht
        exact ⟨fun _ => ht, fun hne => absurd hp hne⟩
      · constructor
        · intro hnil
          have hpg : pileCards g = 0 := by
            unfold pileCards
            have hpl : g.round.pile.plays = [] := hnil
            rw [hpl]
            rfl
          rw [hpg, Nat.add_zero]
          rfl
        · intro _
          rfl

/-- The role-specific trade claim moves one card from the centre into a hand:
the ledger is unchanged (errors change nothing at all). -/
theorem claimTradeRole_total (g : Game) (pi ep sh : Nat) (role : String)
    (hep : ep < g.players.length) (hsh : sh < g.players.length) :
    totalCards (claimTradeRole g pi ep sh role).2 = totalCards g := by
  unfold claimTradeRole
  split
  · split
    · rfl
    split
    · rfl
    · split
      · rfl
      · rename_i hcl c heq
        show totalCards { setHand g ep (sortByValue ((handAt g.players ep) ++ [c])) with
          trade_high_card := none, trade_ep_claimed := true } = totalCards g
        have h1 := setHand_total g ep (sortByValue ((handAt g.players ep) ++ [c])) hep
        have h2 : (sortByValue ((handAt g.players ep) ++ [c])).length
            = (handAt g.players ep).length + 1 := by
          rw [length_sortByValue]
          simp
        have h3 : optCount g.trade_high_card = 1 := by
          rw [heq]
          rfl
        have h4 : totalCards { setHand g ep (sortByValue ((handAt g.players ep) ++ [c])) with
            trade_high_card := none, trade_ep_claimed := true } + optCount g.trade_high_card
            = totalCards (setHand g ep (sortByValue ((handAt g.players ep) ++ [c]))) := by
          unfold totalCards pileCards
          dsimp only
          have hh : (setHand g ep (sortByValue ((handAt g.players ep) ++ [c]))).trade_high_card
              = g.trade_high_card := rfl
          have h0 : optCount (none : Option Card) = 0 := rfl
          rw [hh, h0]
          omega
        omega
  split
  · split
    · rfl
    split
    · rfl
    · split
      · rfl
      · rename_i hr1 hr2 hne hcl c heq
        show totalCards { setHand g sh (sortByValue ((handAt g.players sh) ++ [c])) with
          trade_low_card := none, trade_sh_claimed := true } = totalCards g
        have h1 := setHand_total g sh (sortByValue ((handAt g.players sh) ++ [c])) hsh
        have h2 : (sortByValue ((handAt g.players sh) ++ [c])).length
            = (handAt g.players sh).length + 1 := by
          rw [length_sortByValue]
          simp
        have h3 : optCount g.trade_low_card = 1 := by
          rw [heq]
          rfl
        have h4 : totalCards { setHand g sh (sortByValue ((handAt g.players sh) ++ [c])) with
            trade_low_card := none, trade_sh_claimed := true } + optCount g.trade_low_card
            = totalCards (setHand g sh (sortByValue ((handAt g.players sh) ++ [c]))) := by
          unfold totalCards pileCards
          dsimp only
          have hl : (setHand g sh (sortByValue ((handAt g.players sh) ++ [c]))).trade_low_card
              = g.trade_low_card := rfl
          have h0 : optCount (none : Option Card) = 0 := rfl
          rw [hl, h0]
          omega
        omega
  · rfl

/-- The post-claim phase transition does not touch hands, pile or centre. -/
theorem claimFinish_total (g : Game) : totalCards (claimFinish g) = totalCards g := by
  unfold claimFinish
  split
  · rfl
  · rfl

/-- C5 component: `apply_claim_trade` preserves the conservation ledger in
every branch. -/
theorem applyClaimTrade_total (g : Game) (pid role : String) :
    totalCards (applyClaimTrade g pid role).2 = totalCards g := by
  unfold applyClaimTrade
  split
  · rfl
  cases hep : g.players.findIdx? (fun p => p.past_accolade = Accolade.ElPresidente) with
  | none => simp only [hep]
  | some ep =>
    cases hsh : g.players.findIdx? (fun p => p.past_accolade = Accolade.Shithead) with
    | none => simp only [hep, hsh]
    | some sh =>
      cases hpi : g.players.findIdx? (fun p => p.id = pid) with
      | none => simp only [hep, hsh, hpi]
      | some pi =>
        simp only [hep, hsh, hpi]
        have hepb := (findIdx?_some_getD hep).1
        have hshb := (findIdx?_some_getD hsh).1
        have hrole := claimTradeRole_total g pi ep sh role hepb hshb
        cases hcr : claimTradeRole g pi ep sh role with
        | mk e g2 =>
          rw [hcr] at hrole
          cases e with
          | some s => exact hrole
          | none =>
            show totalCards (claimFinish g2) = totalCards g
            rw [claimFinish_total g2]
            exact hrole

/-- A successful removal takes exactly the played cards out of the hand. -/
theorem removePlayed_len : ∀ (cs hand : List Card),
    (removePlayed cs hand).1 = none →
    (removePlayed cs hand).2.length + cs.length = hand.length := by
  intro cs
  induction cs with
  | nil => intro hand _; simp [removePlayed]
  | cons c rest ih =>
    intro hand h
    unfold removePlayed at h ⊢
    by_cases hc : hand.contains c
    · rw [if_pos hc] at h ⊢
      have hmem : c ∈ hand := by simpa using hc
      have := ih (hand.erase c) h
      have herase : (hand.erase c).length = hand.length - 1 :=
        List.length_erase_of_mem hmem
      have hpos : 1 ≤ hand.length := List.length_pos_of_mem hmem
      simp only [List.length_cons]
      omega
    · rw [if_neg hc] at h
      cases h

/-- The mid-play state: the played cards leave the hand and land on the pile,
so the ledger is unchanged and the pile is non-empty. -/
theorem playMid_total (g : Game) (i : Nat) (p : Play) (hand' : List Card)
    (hi : i < g.players.length)
    (hlen : hand'.length + p.cards.length = (handAt g.players i).length) :
    totalCards (playMid g i p hand') = totalCards g
    ∧ (playMid g i p hand').round.pile.plays = g.round.pile.plays ++ [p]
    ∧ pileCards (playMid g i p hand') = pileCards g + p.cards.length := by
  have hset := setHand_total g i hand' hi
  have hpp : (playMid g i p hand').round.pile.plays = g.round.pile.plays ++ [p] := rfl
  have hmid : totalCards (playMid g i p hand') + (handAt g.players i).length
      = totalCards g + hand'.length + p.cards.length := by
    have hstep : totalCards (playMid g i p hand')
        = totalCards (setHand g i hand') + p.cards.length := by
      unfold totalCards pileCards playMid
      dsimp only
      simp only [List.map_append, List.sum_append, List.map_cons, List.map_nil,
        List.sum_cons, List.sum_nil]
      omega
    omega
  have hpc : pileCards (playMid g i p hand') = pileCards g + p.cards.length := by
    unfold pileCards
    rw [hpp]
    simp
  exact ⟨by omega, hpp, hpc⟩

/-- The shared advance block: ledger unchanged on a turn advance, pile cleared
from the ledger at round end. -/
theorem advanceOr_total (g : Game) (pi w : Nat) :
    ((advanceOr g pi w).round.pile.plays = [] →
      totalCards (advanceOr g pi w) + pileCards g = totalCards g)
    ∧ ((advanceOr g pi w).round.pile.plays ≠ [] →
      totalCards (advanceOr g pi w) = totalCards g) := by
  simp only [advanceOr]
  split
  · obtain ⟨ht, hp⟩ := startNewRound_total g w
    exact ⟨fun _ => ht, fun hne => absurd hp hne⟩
  split
  · obtain ⟨ht, hp⟩ := startNewRound_total g w
    exact ⟨fun _ => ht, fun hne => absurd hp hne⟩
  · constructor
    · intro hnil
      have hpg : pileCards g = 0 := by
        unfold pileCards
        have hpl : g.round.pile.plays = [] := hnil
        rw [hpl]
        rfl
      rw [hpg, Nat.add_zero]
      rfl
    · intro _
      rfl

/-- A successful play keeps the ledger: the played cards move from the hand to
the pile; if the play closes the round the cleared pile (played cards included)
leaves the ledger. -/
theorem applyPlaySuccess_total (g : Game) (i : Nat) (p : Play) (hand' : List Card)
    (hi : i < g.players.length)
    (hlen : hand'.length + p.cards.length = (handAt g.players i).length) :
    ((applyPlaySuccess g i p hand').round.pile.plays = [] →
      totalCards (applyPlaySuccess g i p hand') + pileCards g + p.cards.length
        = totalCards g)
    ∧ ((applyPlaySuccess g i p hand').round.pile.plays ≠ [] →
      totalCards (applyPlaySuccess g i p hand') = totalCards g) := by
  obtain ⟨htot, hpp, hpc⟩ := playMid_total g i p hand' hi hlen
  have bridgeS : ∀ (G : Game) (w : Nat),
      totalCards G = totalCards g → pileCards G = pileCards g + p.cards.length →
      ((startNewRound G w).round.pile.plays = [] →
        totalCards (startNewRound G w) + pileCards g + p.cards.length = totalCards g)
      ∧ ((startNewRound G w).round.pile.plays ≠ [] →
        totalCards (startNewRound G w) = totalCards g) := by
    intro G w hT hP
    obtain ⟨hsum, hnil⟩ := startNewRound_total G w
    exact ⟨fun _ => by omega, fun hne => absurd hnil hne⟩
  have bridgeA : ∀ (G : Game) (w : Nat),
      totalCards G = totalCards g → pileCards G = pileCards g + p.cards.length →
      ((advanceOr G i w).round.pile.plays = [] →
        totalCards (advanceOr G i w) + pileCards g + p.cards.length = totalCards g)
      ∧ ((advanceOr G i w).round.pile.plays ≠ [] →
        totalCards (advanceOr G i w) = totalCards g) := by
    intro G w hT hP
    obtain ⟨hA1, hA2⟩ := advanceOr_total G i w
    constructor
    · intro hnil
      have := hA1 hnil
      omega
    · intro hne
      have := hA2 hne
      omega
  simp only [applyPlaySuccess]
  split
  · split
    · exact bridgeS _ _ htot hpc
    · exact bridgeA _ _ htot hpc
  · exact bridgeA _ _ htot hpc

/-- The checked body of `apply_play` either succeeds, fails with the
partial-removal "Card not in hand", or fails leaving the game unchanged. -/
theorem applyPlayChecked_cases (g : Game) (i : Nat) (p : Play) :
    (applyPlayChecked g i p).1 = none
    ∨ (applyPlayChecked g i p).1 = some "Card not in hand"
    ∨ (applyPlayChecked g i p).2 = g := by
  simp only [applyPlayChecked]
  split
  · right; right; rfl
  split
  · right; right; rfl
  split
  · rename_i e2 hand2 heq
    right; left
    have herr : (removePlayed p.cards (g.players.getD i default).hand).1
        = some "Card not in hand" := by
      apply removePlayed_error
      rw [heq]
      simp
    rw [heq] at herr
    exact herr
  · left
    rfl

/-- Every `apply_play` error other than the partial-removal "Card not in hand"
leaves the game exactly unchanged. -/
theorem applyPlay_error_eq (g : Game) (i : Nat) (p : Play) (e : String)
    (h : (applyPlay g i p).1 = some e) (hne : e ≠ "Card not in hand") :
    (applyPlay g i p).2 = g := by
  have hc := applyPlayChecked_cases g i p
  unfold applyPlay at h ⊢
  split
  · rfl
  split
  · rfl
  rename_i hph htr
  rw [if_neg hph, if_neg htr] at h
  rcases hc with h0 | h1 | h2
  · rw [h0] at h
    cases h
  · rw [h1] at h
    exact absurd (Option.some.inj h).symm hne
  · exact h2

/-- The checked body of `apply_play`, on success, keeps the ledger except that
a round-closing play removes the cleared pile. -/
theorem applyPlayChecked_total (g : Game) (i : Nat) (p : Play)
    (hi : i < g.players.length) :
    (applyPlayChecked g i p).1 = none →
    (((applyPlayChecked g i p).2.round.pile.plays = [] →
      totalCards (applyPlayChecked g i p).2 + pileCards g + p.cards.length
        = totalCards g)
    ∧ ((applyPlayChecked g i p).2.round.pile.plays ≠ [] →
      totalCards (applyPlayChecked g i p).2 = totalCards g)) := by
  simp only [applyPlayChecked]
  split
  · intro h
    exact Option.noConfusion h
  split
  · intro h
    exact Option.noConfusion h
  split
  · rename_i e2 hand2 heq
    intro h
    exact Option.noConfusion h
  · rename_i hand2 heq
    intro _
    have hlen : hand2.length + p.cards.length = (handAt g.players i).length := by
      have hl := removePlayed_len p.cards (g.players.getD i default).hand (by rw [heq])
      rw [heq] at hl
      exact hl
    exact applyPlaySuccess_total g i p hand2 hi hlen

/-- A successful `apply_play` keeps the ledger, except that a round-closing
play removes the cleared pile (the just-played cards included). -/
theorem applyPlay_total (g : Game) (i : Nat) (p : Play)
    (hi : i < g.players.length) (h : (applyPlay g i p).1 = none) :
    ((applyPlay g i p).2.round.pile.plays = [] →
      totalCards (applyPlay g i p).2 + pileCards g + p.cards.length = totalCards g)
    ∧ ((applyPlay g i p).2.round.pile.plays ≠ [] →
      totalCards (applyPlay g i p).2 = totalCards g) := by
  revert h
  unfold applyPlay
  split
  · intro h
    exact Option.noConfusion h
  split
  · intro h
    exact Option.noConfusion h
  · exact applyPlayChecked_total g i p hi
/-- A fresh 2-player deal (no carried-over accolades) puts 35 or 36 cards into
the two hands; the ledger plus the withheld remainder is the full 52-card
deck. -/
theorem startNewGame_two_total (deck : List Card) (rp0 rp1 : Player) (pd : Option Nat)
    (g : Game) (hperm : List.Perm deck standardDeck)
    (hg : startNewGame deck [rp0, rp1] pd none none = some g) :
    totalCards g + (52 - dealtCount deck 0) = 52
    ∧ (52 - dealtCount deck 0 = 17 ∨ 52 - dealtCount deck 0 = 16) := by
  have h1 : (startNewGame deck [rp0, rp1] pd none none).map totalCards
      = some ((sortByValue (deal2go deck 0 0).1).length
        + (sortByValue (deal2go deck 0 0).2).length) := rfl
  rw [hg] at h1
  have h2 : totalCards g
      = (sortByValue (deal2go deck 0 0).1).length
        + (sortByValue (deal2go deck 0 0).2).length := Option.some.inj h1
  rw [length_sortByValue, length_sortByValue] at h2
  obtain ⟨hsum, -⟩ := deal2go_length deck 0 0
  have hdc := dealtCount_perm_deck deck hperm
  have hor : dealtCount deck 0 = 35 ∨ dealtCount deck 0 = 36 := by
    by_cases hq : deck.indexOf (⟨'3', 'C'⟩ : Card) % 3 = 2
    · rw [if_pos hq] at hdc
      omega
    · rw [if_neg hq] at hdc
      omega
  constructor
  · omega
  · omega

/-- C5 (amended): the conservation ledger — cards in hands, plus the pile,
plus parked trade cards.  (1) A fresh 2-player deal (no carried accolades)
satisfies ledger + withheld = 52, with 17 or 16 cards withheld (16 when the 3♣
falls on a skip slot), not always 17.  (2) A successful `apply_play` keeps the
ledger unless it closes the round, in which case exactly the cleared pile
(the just-played cards included) leaves the ledger.  (3) Every `apply_play`
error other than the partial-removal "Card not in hand" leaves the game
unchanged (the exception is the C2 bug).  (4) `apply_pass` keeps the ledger
unless it closes the round, in which case exactly the cleared pile leaves it.
(5) `apply_claim_trade` always keeps the ledger, error branches included. -/
theorem C5_conservation
    (deck : List Card) (rp0 rp1 : Player) (pd : Option Nat) (gf g : Game)
    (i : Nat) (p : Play) (pid role e : String) :
    (List.Perm deck standardDeck →
      startNewGame deck [rp0, rp1] pd none none = some gf →
      totalCards gf + (52 - dealtCount deck 0) = 52
      ∧ (52 - dealtCount deck 0 = 17 ∨ 52 - dealtCount deck 0 = 16))
    ∧ (i < g.players.length → (applyPlay g i p).1 = none →
      ((applyPlay g i p).2.round.pile.plays = [] →
        totalCards (applyPlay g i p).2 + pileCards g + p.cards.length = totalCards g)
      ∧ ((applyPlay g i p).2.round.pile.plays ≠ [] →
        totalCards (applyPlay g i p).2 = totalCards g))
    ∧ ((applyPlay g i p).1 = some e → e ≠ "Card not in hand" →
      (applyPlay g i p).2 = g)
    ∧ (((applyPass g i).2.round.pile.plays = [] →
        totalCards (applyPass g i).2 + pileCards g = totalCards g)
      ∧ ((applyPass g i).2.round.pile.plays ≠ [] →
        totalCards (applyPass g i).2 = totalCards g))
    ∧ totalCards (applyClaimTrade g pid role).2 = totalCards g :=
  ⟨fun hperm hg => startNewGame_two_total deck rp0 rp1 pd gf hperm hg,
    fun hi h => applyPlay_total g i p hi h,
    fun h hne => applyPlay_error_eq g i p e h hne,
    applyPass_total g i,
    applyClaimTrade_total g pid role⟩

/-- C5 witness: the conservation statement evaluated on the reset-ordered deck
and the fresh 2-player game `gC5`: the fresh ledger plus 17 withheld is 52, a
led 3♣ keeps the ledger, an invalid play leaves the game unchanged, an opening
pass keeps the ledger, and a (rejected) trade claim keeps the ledger. -/
theorem C5_witness :
    totalCards gC5 + (52 - dealtCount standardDeck 0) = 52
    ∧ totalCards (applyPlay gC5 0 ⟨[⟨'3', 'C'⟩]⟩).2 = totalCards gC5
    ∧ (applyPlay gC5 0 ⟨[]⟩).2 = gC5
    ∧ totalCards (applyPass gC5 0).2 + pileCards gC5 = totalCards gC5
    ∧ totalCards (applyClaimTrade gC5 "a" "presidente").2 = totalCards gC5 := by
  have H1 := C5_conservation standardDeck (mkP "a" []) (mkP "b" []) none gC5 gC5 0
    ⟨[⟨'3', 'C'⟩]⟩ "a" "presidente" "x"
  have H2 := C5_conservation standardDeck (mkP "a" []) (mkP "b" []) none gC5 gC5 0
    ⟨[]⟩ "a" "presidente" "Invalid play"
  exact ⟨(H1.1 (List.Perm.refl _) (by rfl)).1,
    (H1.2.1 (by decide) (by decide)).2 (by decide),
    H2.2.2.1 (by decide) (by decide),
    (H1.2.2.2.1).1 (by decide),
    H1.2.2.2.2⟩

end Elpres



